import Mathlib

/-!
Ledger logic around the transaction store (`txstore.go`).

A shallow embedding of `TxStore` (package `blockchain`): the validation of
transaction inputs, the admission of single transactions and of batches, the
derivation of the unspent set, and the data-key lookups.

The collaborators of `TxStore` (the transaction storage, the data-key index and
the types of package `bcpb`) are interfaces to this file; they are taken with
arbitrary implementations, the state of a collaborator being passed explicitly.
-/

namespace Blockchain

/-! ## Data model (package `bcpb`) -/

/-- A digest, identified with its `String()` rendering: the only way
`txstore.go` looks at a digest is as a map key and as the argument of `Get`. -/
abbrev Digest := String

/-- A public key. -/
abbrev PublicKey := String

/-- A logical data key. -/
abbrev DataKey := String

/-- Modelled from the spec: `bcpb.TxOutput` is declared outside the source.
An output carries its data key and its unlock predicate (`PubKeyCanUnlock`),
which reports whether a public key may claim the output. -/
structure TxOutput where
  DataKey : String
  PubKeyCanUnlock : PublicKey → Bool

/-- Modelled from the spec: `bcpb.TxInput` is declared outside the source.
An input carries the digest of the referenced transaction, the position of the
claimed output (an `int32`), the public keys asserted for the spend, and the
result of its `IsBase()` method. -/
structure TxInput where
  Ref : Digest
  Index : Int
  PubKeys : List PublicKey
  IsBase : Bool

/-- Modelled from the spec: `bcpb.Tx` is declared outside the source.
A transaction carries its digest, its inputs, its outputs, and the result of
its `IsBase()` method, whose body is not part of the source and is therefore
left unconstrained. -/
structure Tx where
  Digest : Digest
  Inputs : List TxInput
  Outputs : List TxOutput
  IsBase : Bool

/-- Go `error` values seen by `txstore.go`: the sentinel `bcpb.ErrNotAuthorized`,
an error made by `errors.New`, and any other error a collaborator reports. -/
inductive Error where
  | ErrNotAuthorized
  | New (msg : String)
  | external (code : Nat)
  deriving DecidableEq, Repr

/-- The error built at `SetBatch`, `errors.New("tx already spent")`. -/
def errAlreadySpent : Error := Error.New "tx already spent"

/-- What a call does: it returns a value, or the Go runtime panics (the only
panic of `txstore.go` on non-nil arguments is the unguarded slice index of
`validateTxInputs`). -/
inductive Outcome (α : Type) where
  | returns (a : α)
  | panics

/-- Go slice indexing `xs[i]` with an `int32` index: `none` stands for the
runtime panic "index out of range". -/
def sliceIndex {α : Type} (xs : List α) : Int → Option α
  | Int.ofNat n => xs.get? n
  | Int.negSucc _ => none

/-- Go conversion `int32(i)` of an `int`. -/
def int32 (i : Int) : Int := (i + 2147483648) % 4294967296 - 2147483648

/-! ## Collaborators -/

/-- Modelled from the spec: the interface `TxStorage` is declared outside the
source. `get(digest) -> Result<Tx, Error>`, `set(tx)` and `set_batch(txs)`
return an error or nil and leave a new store state, and `iterate` visits every
stored transaction once, in an order the store chooses (the list `Iter s`). -/
structure TxStorage (σ : Type) where
  Get : σ → Digest → Except Error Tx
  Set : σ → Tx → Option Error × σ
  SetBatch : σ → List Tx → Option Error × σ
  Iter : σ → List Tx

/-- Modelled from the spec: the interface `DataKeyIndex` is declared outside
the source. `get(data_key) -> Result<(digest, index), Error>` and
`set(data_key, digest, index)` returning an error or nil and a new index state. -/
structure DataKeyIndex (ι : Type) where
  Get : ι → DataKey → Except Error (Digest × Int)
  Set : ι → DataKey → Digest → Int → Option Error × ι

/-- The struct `TxStore`: ledger logic around the store. -/
structure TxStore (σ ι : Type) where
  tx : TxStorage σ
  dki : DataKeyIndex ι

/-! ## Go maps keyed by the digest string -/

/-- A Go `map[string]bcpb.Tx`: a list of entries holding every key at most
once. The order of the entries carries no meaning. -/
structure TxMap where
  entries : List (String × Tx)

/-- The entries of `es` whose key is not `k`. -/
def dropKey (k : String) : List (String × Tx) → List (String × Tx)
  | [] => []
  | e :: es => if e.1 = k then dropKey k es else e :: dropKey k es

/-- The value of the first entry of `es` with key `k`. -/
def findKey (k : String) : List (String × Tx) → Option Tx
  | [] => none
  | e :: es => if e.1 = k then some e.2 else findKey k es

/-- Go `make(map[string]bcpb.Tx)`. -/
def TxMap.empty : TxMap := ⟨[]⟩

/-- Go `m[k] = v`. -/
def TxMap.insert (m : TxMap) (k : String) (v : Tx) : TxMap :=
  ⟨(k, v) :: dropKey k m.entries⟩

/-- Go `delete(m, k)`. -/
def TxMap.delete (m : TxMap) (k : String) : TxMap :=
  ⟨dropKey k m.entries⟩

/-- Go `v, ok := m[k]`, as an option. -/
def TxMap.lookup (m : TxMap) (k : String) : Option Tx :=
  findKey k m.entries

/-- Go `_, ok := m[k]`. -/
def TxMap.contains (m : TxMap) (k : String) : Bool :=
  (m.lookup k).isSome

/-- The keys of the map. -/
def TxMap.keys (m : TxMap) : List String :=
  m.entries.map Prod.fst

/-! ## `FindUnspent` -/

/-- The two working sets of `FindUnspent`: the map `unspent` and the set
`spent` (a `map[string]struct{}`, kept as the list of its elements). -/
structure Scan where
  unspent : TxMap
  spent : List String

/-- The body of the loop over `tx.Inputs` in `FindUnspent`: mark the
referenced transaction as spent and remove it from `unspent`. -/
def FindUnspent.mark (acc : Scan) (i : TxInput) : Scan :=
  ⟨acc.unspent.delete i.Ref, i.Ref :: acc.spent⟩

/-- The callback handed to `Iter` in `FindUnspent`, run on one transaction. -/
def FindUnspent.visit (acc : Scan) (tx : Tx) : Scan :=
  let acc1 : Scan :=
    if tx.Digest ∈ acc.spent then acc
    else ⟨acc.unspent.insert tx.Digest tx, acc.spent⟩
  if tx.IsBase then acc1
  else tx.Inputs.foldl FindUnspent.mark acc1

/-- The scan of `FindUnspent` over the transactions in the order visited. -/
def FindUnspent.scan (txs : List Tx) : Scan :=
  txs.foldl FindUnspent.visit ⟨TxMap.empty, []⟩

/-- `FindUnspent` finds all transactions whose outputs are not referenced by
any inputs. -/
def TxStore.FindUnspent {σ ι : Type} (st : TxStore σ ι) (s : σ) : TxMap :=
  (FindUnspent.scan (st.tx.Iter s)).unspent

/-! ## `FindUTX` -/

/-- The body of the loop over the entries in `FindUTX`: the entry is deleted
as soon as one of its outputs cannot be unlocked by `pubkey`. -/
def FindUTX.filter (pubkey : PublicKey) (unspent : TxMap) (e : String × Tx) : TxMap :=
  if e.2.Outputs.all (fun out => out.PubKeyCanUnlock pubkey) then unspent
  else unspent.delete e.1

/-- `FindUTX` finds transactions with unused outputs for the given public key. -/
def TxStore.FindUTX {σ ι : Type} (st : TxStore σ ι) (s : σ) (pubkey : PublicKey) : TxMap :=
  let unspent := st.FindUnspent s
  unspent.entries.foldl (FindUTX.filter pubkey) unspent

/-! ## `validateTxInputs`, `Set`, `SetBatch` -/

/-- The loop of `validateTxInputs` over the inputs. -/
def validateInputs {σ : Type} (S : TxStorage σ) (s : σ) : List TxInput → Outcome (Option Error)
  | [] => Outcome.returns none
  | i :: rest =>
    if i.IsBase then validateInputs S s rest
    else
      match S.Get s i.Ref with
      | Except.error err => Outcome.returns (some err)
      | Except.ok txref =>
        match sliceIndex txref.Outputs i.Index with
        | none => Outcome.panics
        | some output =>
          if i.PubKeys.all (fun pk => output.PubKeyCanUnlock pk) then validateInputs S s rest
          else Outcome.returns (some Error.ErrNotAuthorized)

/-- `validateTxInputs` checks if the specified public keys in the inputs have
access to the referenced outputs. -/
def TxStore.validateTxInputs {σ ι : Type} (st : TxStore σ ι) (s : σ) (tx : Tx) :
    Outcome (Option Error) :=
  validateInputs st.tx s tx.Inputs

/-- `Set` validates the given transaction and sets it to the store. -/
def TxStore.Set {σ ι : Type} (st : TxStore σ ι) (s : σ) (tx : Tx) :
    Outcome (Option Error × σ) :=
  match st.validateTxInputs s tx with
  | Outcome.panics => Outcome.panics
  | Outcome.returns (some err) => Outcome.returns (some err, s)
  | Outcome.returns none => Outcome.returns (st.tx.Set s tx)

/-- The inner loop of `SetBatch`: make sure inputs have not been spent. -/
def SetBatch.checkSpent (unspent : TxMap) : List TxInput → Option Error
  | [] => none
  | i :: rest =>
    if i.IsBase then SetBatch.checkSpent unspent rest
    else if unspent.contains i.Ref then SetBatch.checkSpent unspent rest
    else some errAlreadySpent

/-- The outer loop of `SetBatch` over the transactions of the batch. -/
def SetBatch.check {σ ι : Type} (st : TxStore σ ι) (s : σ) (unspent : TxMap) :
    List Tx → Outcome (Option Error)
  | [] => Outcome.returns none
  | tx :: rest =>
    match st.validateTxInputs s tx with
    | Outcome.panics => Outcome.panics
    | Outcome.returns (some err) => Outcome.returns (some err)
    | Outcome.returns none =>
      match SetBatch.checkSpent unspent tx.Inputs with
      | some err => Outcome.returns (some err)
      | none => SetBatch.check st s unspent rest

/-- `SetBatch` validates the transaction inputs and sets them to the store. -/
def TxStore.SetBatch {σ ι : Type} (st : TxStore σ ι) (s : σ) (txs : List Tx) :
    Outcome (Option Error × σ) :=
  match SetBatch.check st s (st.FindUnspent s) txs with
  | Outcome.panics => Outcome.panics
  | Outcome.returns (some err) => Outcome.returns (some err, s)
  | Outcome.returns none => Outcome.returns (st.tx.SetBatch s txs)

/-! ## `GetDataKeyTx`, `indexTxos` -/

/-- `GetDataKeyTx` returns the last transaction and output index associated to
the data key. -/
def TxStore.GetDataKeyTx {σ ι : Type} (st : TxStore σ ι) (s : σ) (x : ι) (key : DataKey) :
    Option Tx × Int × Option Error :=
  match st.dki.Get x key with
  | Except.error err => (none, -1, some err)
  | Except.ok (ref, i) =>
    match st.tx.Get s ref with
    | Except.error err => (none, i, some err)
    | Except.ok tx => (some tx, i, none)

/-- The loop of `indexTxos` over the outputs of one transaction, from
position `i` on. -/
def indexTxos.outputs {ι : Type} (D : DataKeyIndex ι) (digest : Digest) :
    ι → Int → List TxOutput → Option Error × ι
  | x, _, [] => (none, x)
  | x, i, txo :: rest =>
    match D.Set x txo.DataKey digest (int32 i) with
    | (some err, x1) => (some err, x1)
    | (none, x1) => indexTxos.outputs D digest x1 (i + 1) rest

/-- `indexTxos` sets the index entry of every output of every transaction. -/
def TxStore.indexTxos {σ ι : Type} (st : TxStore σ ι) : ι → List Tx → Option Error × ι
  | x, [] => (none, x)
  | x, tx :: rest =>
    match indexTxos.outputs st.dki tx.Digest x 0 tx.Outputs with
    | (some err, x1) => (some err, x1)
    | (none, x1) => TxStore.indexTxos st x1 rest

/-- Transaction `tx` spends `d` in the scan of `FindUnspent`: it is not a
base transaction and one of its inputs references `d`. -/
def Tx.Spends (tx : Tx) (d : String) : Prop :=
  tx.IsBase = false ∧ ∃ i ∈ tx.Inputs, i.Ref = d

/-- Modelled from the spec: the secondary index is a key-value store of
entries `data_key → (tx_digest, output_index)`. After a `set(data_key, digest,
index)` that succeeds, `get(data_key)` yields `(digest, index)`, and every
other key yields what it yielded before. -/
def DataKeyIndex.Lawful {ι : Type} (D : DataKeyIndex ι) : Prop :=
  ∀ x k d i x1, D.Set x k d i = (none, x1) →
    D.Get x1 k = Except.ok (d, i) ∧ ∀ k2, k2 ≠ k → D.Get x1 k2 = D.Get x k2

/-- Input `j` is valid in the store: it is a base input, or its referenced
transaction is in the store, its index is a position of the outputs of that
transaction, and every public key it lists unlocks that output. -/
def InputValid {σ : Type} (S : TxStorage σ) (s : σ) (j : TxInput) : Prop :=
  j.IsBase = true ∨ ∃ r o, S.Get s j.Ref = Except.ok r ∧
    sliceIndex r.Outputs j.Index = some o ∧ ∀ k ∈ j.PubKeys, o.PubKeyCanUnlock k = true

/-! ## A stub store for the test scenarios -/

/-- The stub store of the test scenarios: the state is the list of stored
transactions in iteration order, `Get` finds the first one with the digest and
reports error 404 otherwise, `Set` and `SetBatch` append. -/
def stubStorage : TxStorage (List Tx) where
  Get := fun s ref =>
    match s.find? (fun tx => decide (tx.Digest = ref)) with
    | some tx => Except.ok tx
    | none => Except.error (Error.external 404)
  Set := fun s tx => (none, s ++ [tx])
  SetBatch := fun s txs => (none, s ++ txs)
  Iter := fun s => s

/-- The stub index of the test scenarios: the state is the list of entries,
the newest first. -/
def stubIndex : DataKeyIndex (List (DataKey × Digest × Int)) where
  Get := fun x key =>
    match x.find? (fun e => decide (e.1 = key)) with
    | some e => Except.ok e.2
    | none => Except.error (Error.external 404)
  Set := fun x key ref i => (none, (key, ref, i) :: x)

/-- The `TxStore` around the stub store and the stub index. -/
def stubStore : TxStore (List Tx) (List (DataKey × Digest × Int)) :=
  ⟨stubStorage, stubIndex⟩

/-- An output with data key `k` that exactly the public key `owner` unlocks. -/
def ownedOutput (k : DataKey) (owner : PublicKey) : TxOutput :=
  ⟨k, fun pk => decide (pk = owner)⟩

/-- A base transaction with digest `d` and the given outputs. -/
def baseTx (d : Digest) (outs : List TxOutput) : Tx :=
  ⟨d, [⟨"", -1, [], true⟩], outs, true⟩

/-- A non-base transaction with digest `d` whose inputs claim the outputs
`refs` (digest and index), each with the keys `keys`, and with the given
outputs. -/
def spendTx (d : Digest) (refs : List (Digest × Int)) (keys : List PublicKey)
    (outs : List TxOutput) : Tx :=
  ⟨d, refs.map (fun r => ⟨r.1, r.2, keys, false⟩), outs, false⟩

/-! ## Transactions of the test scenarios -/

/-- Base transaction `B` with one output, data key "x", unlockable by key "A". -/
def txB : Tx := baseTx "b" [ownedOutput "x" "A"]

/-- Transaction `T1`, whose sole input claims `(B, 0)` with key "A". -/
def txT1 : Tx := spendTx "t1" [("b", 0)] ["A"] [ownedOutput "x" "A"]

/-- Transaction `T2`, whose sole input claims `(B, 0)` with key "A" again. -/
def txT2 : Tx := spendTx "t2" [("b", 0)] ["A"] [ownedOutput "x" "A"]

/-- A transaction whose sole input claims `(B, 0)` with key "C", which does
not unlock the output. -/
def txUnauth : Tx := spendTx "u" [("b", 0)] ["C"] [ownedOutput "x" "C"]

/-- Base transaction `C` with one output unlockable by key "A". -/
def txC : Tx := baseTx "c" [ownedOutput "y" "A"]

/-- Transaction `D`, whose sole input claims `(C, 0)`. -/
def txD : Tx := spendTx "d" [("c", 0)] ["A"] [ownedOutput "y" "A"]

/-- A transaction whose inputs claim `(B, 0)` and the already spent `(C, 0)`. -/
def txBC : Tx := spendTx "bc" [("b", 0), ("c", 0)] ["A"] [ownedOutput "x" "A"]

/-- A transaction whose sole input claims `(B, 1)`, a position that the one
output of `B` does not have. -/
def txOob : Tx := spendTx "o" [("b", 1)] ["A"] [ownedOutput "x" "A"]

/-- A transaction whose sole input claims `(B, -1)`, a negative position. -/
def txNeg : Tx := spendTx "n" [("b", -1)] ["A"] [ownedOutput "x" "A"]

/-- A transaction flagged base whose input carries the reference `b`. -/
def txG : Tx := ⟨"g", [⟨"b", 0, [], true⟩], [], true⟩

/-- A non-base transaction whose sole input references its own digest. -/
def txSelf : Tx := spendTx "s" [("s", 0)] [] []

/-- Base transaction `B2` with two outputs. -/
def txB2 : Tx := baseTx "b2" [ownedOutput "x" "A", ownedOutput "y" "A"]

/-- A transaction whose sole input claims output 0 of `B2`. -/
def txS2 : Tx := spendTx "s2" [("b2", 0)] ["A"] [ownedOutput "x" "A"]

/-- A transaction with an input claiming `(B, 0)` with the key "A", which
unlocks it, and a second input claiming `(B, 0)` with the key "C", which does
not. -/
def txT2x : Tx :=
  ⟨"t2x", [⟨"b", 0, ["A"], false⟩, ⟨"b", 0, ["C"], false⟩], [ownedOutput "x" "A"], false⟩

/-- Base transaction `A2` with one output unlockable by key "Z" only. -/
def txA2 : Tx := baseTx "a2" [ownedOutput "x" "Z"]

/-- Base transaction `KK` with two outputs of the same data key "k". -/
def txKK : Tx := baseTx "kk" [ownedOutput "k" "A", ownedOutput "k" "A"]

/-- A non-base transaction with a base input carrying the reference `b` and a
non-base input claiming `(C, 0)`. -/
def txMix : Tx :=
  ⟨"m", [⟨"b", 0, [], true⟩, ⟨"c", 0, ["A"], false⟩], [ownedOutput "y" "A"], false⟩

/-- A transaction all of whose inputs are base inputs, with arbitrary
references, indices and keys. -/
def txAllBase : Tx :=
  ⟨"ab", [⟨"zz", 7, ["Q"], true⟩, ⟨"b", -3, [], true⟩], [ownedOutput "x" "A"], false⟩

/-- A transaction whose sole input claims `(B, 0)` and lists no public key. -/
def txNoKeys : Tx := spendTx "nk" [("b", 0)] [] [ownedOutput "x" "Q"]

/-- Transaction `T3`, whose sole input claims output 0 of `T1`. -/
def txT3 : Tx := spendTx "t3" [("t1", 0)] ["A"] [ownedOutput "x" "A"]

/-- A transaction whose first input claims `(B, 0)` with the key "C", which
does not unlock it, and whose second input claims output 0 of `T1`. -/
def txT4 : Tx :=
  ⟨"t4", [⟨"b", 0, ["C"], false⟩, ⟨"t1", 0, ["A"], false⟩], [ownedOutput "x" "A"], false⟩

/-! ## Go maps: insertion, deletion, lookup -/

theorem mem_keys_dropKey (k a : String) (es : List (String × Tx)) :
    a ∈ (dropKey k es).map Prod.fst ↔ a ∈ es.map Prod.fst ∧ a ≠ k := by
  induction es with
  | nil => simp [dropKey]
  | cons e es ih =>
    unfold dropKey
    by_cases h : e.1 = k
    · simp only [h, if_true, ih, List.map_cons, List.mem_cons]
      constructor
      · rintro ⟨h1, h2⟩
        exact ⟨Or.inr h1, h2⟩
      · rintro ⟨h1 | h1, h2⟩
        · exact absurd h1 h2
        · exact ⟨h1, h2⟩
    · simp only [h, if_false, List.map_cons, List.mem_cons, ih]
      constructor
      · rintro (h1 | ⟨h1, h2⟩)
        · exact ⟨Or.inl h1, fun hk => h (by rw [← h1, hk])⟩
        · exact ⟨Or.inr h1, h2⟩
      · rintro ⟨h1 | h1, h2⟩
        · exact Or.inl h1
        · exact Or.inr ⟨h1, h2⟩

theorem findKey_dropKey_self (k : String) (es : List (String × Tx)) :
    findKey k (dropKey k es) = none := by
  induction es with
  | nil => simp [dropKey, findKey]
  | cons e es ih =>
    unfold dropKey
    by_cases h : e.1 = k
    · simp [h, ih]
    · simp [h, findKey, ih]

theorem findKey_dropKey_of_ne {k a : String} (h : a ≠ k) (es : List (String × Tx)) :
    findKey a (dropKey k es) = findKey a es := by
  induction es with
  | nil => simp [dropKey]
  | cons e es ih =>
    unfold dropKey
    by_cases hk : e.1 = k
    · have ha : ¬ e.1 = a := fun h1 => h (by rw [← h1, hk])
      rw [if_pos hk, ih]
      conv_rhs => unfold findKey
      rw [if_neg ha]
    · rw [if_neg hk]
      unfold findKey
      by_cases ha : e.1 = a
      · rw [if_pos ha, if_pos ha]
      · rw [if_neg ha, if_neg ha, ih]

theorem findKey_isSome_iff (k : String) (es : List (String × Tx)) :
    (findKey k es).isSome = true ↔ k ∈ es.map Prod.fst := by
  induction es with
  | nil => simp [findKey]
  | cons e es ih =>
    unfold findKey
    by_cases h : e.1 = k
    · simp [h]
    · have h1 : ¬ k = e.1 := fun hk => h hk.symm
      simp [h, h1, ih]

theorem TxMap.contains_iff (m : TxMap) (k : String) :
    m.contains k = true ↔ k ∈ m.keys :=
  findKey_isSome_iff k m.entries

theorem TxMap.lookup_isSome_iff (m : TxMap) (k : String) :
    (m.lookup k).isSome = true ↔ k ∈ m.keys :=
  findKey_isSome_iff k m.entries

theorem TxMap.mem_keys_insert (m : TxMap) (k a : String) (v : Tx) :
    a ∈ (m.insert k v).keys ↔ a = k ∨ a ∈ m.keys := by
  simp only [TxMap.keys, TxMap.insert, List.map_cons, List.mem_cons, mem_keys_dropKey]
  constructor
  · rintro (h | ⟨h, _⟩)
    · exact Or.inl h
    · exact Or.inr h
  · rintro (h | h)
    · exact Or.inl h
    · by_cases hk : a = k
      · exact Or.inl hk
      · exact Or.inr ⟨h, hk⟩

theorem TxMap.mem_keys_delete (m : TxMap) (k a : String) :
    a ∈ (m.delete k).keys ↔ a ∈ m.keys ∧ a ≠ k :=
  mem_keys_dropKey k a m.entries

theorem TxMap.lookup_insert_self (m : TxMap) (k : String) (v : Tx) :
    (m.insert k v).lookup k = some v := by
  simp [TxMap.lookup, TxMap.insert, findKey]

theorem TxMap.lookup_insert_of_ne (m : TxMap) {k a : String} (h : a ≠ k) (v : Tx) :
    (m.insert k v).lookup a = m.lookup a := by
  have h1 : ¬ k = a := fun hk => h hk.symm
  simp [TxMap.lookup, TxMap.insert, findKey, h1, findKey_dropKey_of_ne h]

theorem TxMap.lookup_delete_of_ne (m : TxMap) {k a : String} (h : a ≠ k) :
    (m.delete k).lookup a = m.lookup a :=
  findKey_dropKey_of_ne h m.entries

/-! ## The scan of `FindUnspent` -/

theorem mark_foldl_keys (ins : List TxInput) (acc : Scan) (d : String) :
    d ∈ (ins.foldl FindUnspent.mark acc).unspent.keys ↔
      d ∈ acc.unspent.keys ∧ ∀ i ∈ ins, i.Ref ≠ d := by
  induction ins generalizing acc with
  | nil => simp
  | cons i ins ih =>
    rw [List.foldl_cons, ih]
    simp only [FindUnspent.mark, TxMap.mem_keys_delete, List.mem_cons, forall_eq_or_imp]
    constructor
    · rintro ⟨⟨h1, h2⟩, h3⟩
      exact ⟨h1, fun h => h2 h.symm, h3⟩
    · rintro ⟨h1, h2, h3⟩
      exact ⟨⟨h1, fun h => h2 h.symm⟩, h3⟩

theorem mark_foldl_spent (ins : List TxInput) (acc : Scan) (d : String) :
    d ∈ (ins.foldl FindUnspent.mark acc).spent ↔
      d ∈ acc.spent ∨ ∃ i ∈ ins, i.Ref = d := by
  induction ins generalizing acc with
  | nil => simp
  | cons i ins ih =>
    rw [List.foldl_cons, ih]
    simp only [FindUnspent.mark, List.mem_cons, exists_eq_or_imp]
    constructor
    · rintro ((h | h) | h)
      · exact Or.inr (Or.inl h.symm)
      · exact Or.inl h
      · exact Or.inr (Or.inr h)
    · rintro (h | h | h)
      · exact Or.inl (Or.inr h)
      · exact Or.inl (Or.inl h.symm)
      · exact Or.inr h

theorem mark_foldl_lookup (ins : List TxInput) (acc : Scan) (d : String)
    (h : ∀ i ∈ ins, i.Ref ≠ d) :
    (ins.foldl FindUnspent.mark acc).unspent.lookup d = acc.unspent.lookup d := by
  induction ins generalizing acc with
  | nil => rfl
  | cons i ins ih =>
    rw [List.foldl_cons, ih _ (fun j hj => h j (List.mem_cons_of_mem _ hj))]
    exact TxMap.lookup_delete_of_ne _ (fun hd => h i (List.mem_cons_self _ _) hd.symm)

theorem visit_keys (acc : Scan) (tx : Tx) (d : String) :
    d ∈ (FindUnspent.visit acc tx).unspent.keys ↔
      ¬ tx.Spends d ∧ (d ∈ acc.unspent.keys ∨ (d ∉ acc.spent ∧ tx.Digest = d)) := by
  unfold FindUnspent.visit Tx.Spends
  by_cases hb : tx.IsBase = true
  · simp only [hb, if_true]
    by_cases hs : tx.Digest ∈ acc.spent
    · simp only [hs, if_true]
      constructor
      · intro h
        exact ⟨fun h1 => Bool.noConfusion h1.1, Or.inl h⟩
      · rintro ⟨_, h | ⟨h1, h2⟩⟩
        · exact h
        · exact absurd (h2 ▸ hs) h1
    · simp only [hs, if_false, TxMap.mem_keys_insert]
      constructor
      · rintro (h | h)
        · exact ⟨fun h1 => Bool.noConfusion h1.1, Or.inr ⟨h ▸ hs, h.symm⟩⟩
        · exact ⟨fun h1 => Bool.noConfusion h1.1, Or.inl h⟩
      · rintro ⟨_, h | ⟨_, h2⟩⟩
        · exact Or.inr h
        · exact Or.inl h2.symm
  · have hb1 : tx.IsBase = false := by simpa using hb
    simp only [hb1, Bool.false_eq_true, if_false, mark_foldl_keys, true_and, not_exists, not_and]
    by_cases hs : tx.Digest ∈ acc.spent
    · simp only [hs, if_true]
      constructor
      · rintro ⟨h1, h2⟩
        exact ⟨h2, Or.inl h1⟩
      · rintro ⟨h1, h | ⟨h2, h3⟩⟩
        · exact ⟨h, h1⟩
        · exact absurd (h3 ▸ hs) h2
    · simp only [hs, if_false, TxMap.mem_keys_insert]
      constructor
      · rintro ⟨h | h, h2⟩
        · exact ⟨h2, Or.inr ⟨h ▸ hs, h.symm⟩⟩
        · exact ⟨h2, Or.inl h⟩
      · rintro ⟨h1, h | ⟨_, h3⟩⟩
        · exact ⟨Or.inr h, h1⟩
        · exact ⟨Or.inl h3.symm, h1⟩

theorem visit_spent (acc : Scan) (tx : Tx) (d : String) :
    d ∈ (FindUnspent.visit acc tx).spent ↔ d ∈ acc.spent ∨ tx.Spends d := by
  unfold FindUnspent.visit Tx.Spends
  by_cases hb : tx.IsBase = true
  · simp only [hb, if_true]
    have h0 : ¬ (true = false ∧ ∃ i ∈ tx.Inputs, i.Ref = d) := fun h => Bool.noConfusion h.1
    by_cases hs : tx.Digest ∈ acc.spent
    · simp only [hs, if_true, h0, or_false]
    · simp only [hs, if_false, h0, or_false]
  · have hb1 : tx.IsBase = false := by simpa using hb
    simp only [hb1, Bool.false_eq_true, if_false, mark_foldl_spent, true_and]
    by_cases hs : tx.Digest ∈ acc.spent
    · simp only [hs, if_true]
    · simp only [hs, if_false]

theorem foldl_visit_keys (txs : List Tx) (acc : Scan) (d : String) :
    d ∈ (txs.foldl FindUnspent.visit acc).unspent.keys ↔
      (∀ tx ∈ txs, ¬ tx.Spends d) ∧
        (d ∈ acc.unspent.keys ∨ (d ∉ acc.spent ∧ ∃ tx ∈ txs, tx.Digest = d)) := by
  induction txs generalizing acc with
  | nil => simp
  | cons t txs ih =>
    rw [List.foldl_cons, ih, visit_keys, visit_spent]
    simp only [List.mem_cons, forall_eq_or_imp, exists_eq_or_imp, not_or]
    constructor
    · rintro ⟨h1, ⟨h2, h3⟩ | ⟨⟨h4, h5⟩, h6⟩⟩
      · rcases h3 with h3 | ⟨h3, h7⟩
        · exact ⟨⟨h2, h1⟩, Or.inl h3⟩
        · exact ⟨⟨h2, h1⟩, Or.inr ⟨h3, Or.inl h7⟩⟩
      · exact ⟨⟨h5, h1⟩, Or.inr ⟨h4, Or.inr h6⟩⟩
    · rintro ⟨⟨h1, h2⟩, h3 | ⟨h3, h4 | h4⟩⟩
      · exact ⟨h2, Or.inl ⟨h1, Or.inl h3⟩⟩
      · exact ⟨h2, Or.inl ⟨h1, Or.inr ⟨h3, h4⟩⟩⟩
      · exact ⟨h2, Or.inr ⟨⟨h3, h1⟩, h4⟩⟩

/-- The keys of the scanned map: a digest is a key exactly when it is the
digest of a visited transaction and no visited transaction spends it. -/
theorem scan_keys (txs : List Tx) (d : String) :
    d ∈ (FindUnspent.scan txs).unspent.keys ↔
      (∃ tx ∈ txs, tx.Digest = d) ∧ ∀ tx ∈ txs, ¬ tx.Spends d := by
  unfold FindUnspent.scan
  rw [foldl_visit_keys]
  simp [TxMap.keys, TxMap.empty, and_comm]

theorem visit_lookup (acc : Scan) (tx : Tx) (d : String) (h : ¬ tx.Spends d) :
    (FindUnspent.visit acc tx).unspent.lookup d =
      if tx.Digest = d ∧ d ∉ acc.spent then some tx else acc.unspent.lookup d := by
  have key : (if tx.Digest ∈ acc.spent then acc
        else (⟨acc.unspent.insert tx.Digest tx, acc.spent⟩ : Scan)).unspent.lookup d =
      if tx.Digest = d ∧ d ∉ acc.spent then some tx else acc.unspent.lookup d := by
    by_cases hd : tx.Digest = d
    · subst hd
      by_cases hs : tx.Digest ∈ acc.spent
      · simp [hs]
      · simp [hs, TxMap.lookup_insert_self]
    · have hd1 : d ≠ tx.Digest := fun h1 => hd h1.symm
      by_cases hs : tx.Digest ∈ acc.spent
      · simp [hs, hd]
      · simp [hs, hd, TxMap.lookup_insert_of_ne _ hd1]
  unfold FindUnspent.visit
  by_cases hb : tx.IsBase = true
  · simp only [hb, if_true]
    exact key
  · have hb1 : tx.IsBase = false := by simpa using hb
    simp only [hb1, Bool.false_eq_true, if_false]
    rw [mark_foldl_lookup _ _ _ (fun i hi hr => h ⟨hb1, i, hi, hr⟩)]
    exact key

theorem foldl_visit_lookup (txs : List Tx) (acc : Scan) (d : String) (tx0 : Tx)
    (hns : ∀ tx ∈ txs, ¬ tx.Spends d) (hsp : d ∉ acc.spent)
    (huniq : ∀ t ∈ txs, t.Digest = d → t = tx0)
    (h : (tx0 ∈ txs ∧ tx0.Digest = d) ∨ acc.unspent.lookup d = some tx0) :
    (txs.foldl FindUnspent.visit acc).unspent.lookup d = some tx0 := by
  induction txs generalizing acc with
  | nil =>
    rcases h with ⟨h, _⟩ | h
    · exact absurd h (List.not_mem_nil _)
    · exact h
  | cons t txs ih =>
    rw [List.foldl_cons]
    have hnt : ¬ t.Spends d := hns t (List.mem_cons_self _ _)
    have hl := visit_lookup acc t d hnt
    apply ih
    · exact fun tx htx => hns tx (List.mem_cons_of_mem _ htx)
    · rw [visit_spent]
      exact fun h1 => h1.elim hsp hnt
    · exact fun u hu => huniq u (List.mem_cons_of_mem _ hu)
    · rcases h with ⟨hm, hd⟩ | h
      · rcases List.mem_cons.mp hm with hm | hm
        · right
          rw [hl]
          subst hm
          simp [hd, hsp]
        · exact Or.inl ⟨hm, hd⟩
      · right
        rw [hl]
        by_cases ht : t.Digest = d
        · rw [if_pos ⟨ht, hsp⟩, huniq t (List.mem_cons_self _ _) ht]
        · rw [if_neg (fun h1 => ht h1.1)]
          exact h

/-- The value of the scanned map at the digest of a visited transaction that
no visited transaction spends and that is the only one with its digest. -/
theorem scan_lookup (txs : List Tx) (tx0 : Tx) (hm : tx0 ∈ txs)
    (hns : ∀ tx ∈ txs, ¬ tx.Spends tx0.Digest)
    (huniq : ∀ t ∈ txs, t.Digest = tx0.Digest → t = tx0) :
    (FindUnspent.scan txs).unspent.lookup tx0.Digest = some tx0 :=
  foldl_visit_lookup txs _ _ tx0 hns (List.not_mem_nil _) huniq (Or.inl ⟨hm, rfl⟩)

/-! ## The checks of `SetBatch` -/

theorem checkSpent_eq_none_iff (unspent : TxMap) (ins : List TxInput) :
    SetBatch.checkSpent unspent ins = none ↔
      ∀ i ∈ ins, i.IsBase = false → i.Ref ∈ unspent.keys := by
  induction ins with
  | nil => simp [SetBatch.checkSpent]
  | cons i ins ih =>
    unfold SetBatch.checkSpent
    simp only [List.mem_cons, forall_eq_or_imp]
    by_cases hb : i.IsBase = true
    · simp [hb, ih]
    · have hb1 : i.IsBase = false := by simpa using hb
      by_cases hc : unspent.contains i.Ref = true
      · simp [hb1, hc, ih, (TxMap.contains_iff _ _).mp hc]
      · have hk : i.Ref ∉ unspent.keys := fun h => hc ((TxMap.contains_iff _ _).mpr h)
        simp [hb1, hc, hk]

theorem checkSpent_cases (unspent : TxMap) (ins : List TxInput) :
    SetBatch.checkSpent unspent ins = none ∨
      SetBatch.checkSpent unspent ins = some errAlreadySpent := by
  induction ins with
  | nil => exact Or.inl rfl
  | cons i ins ih =>
    unfold SetBatch.checkSpent
    by_cases hb : i.IsBase = true
    · simpa [hb] using ih
    · have hb1 : i.IsBase = false := by simpa using hb
      by_cases hc : unspent.contains i.Ref = true
      · simpa [hb1, hc] using ih
      · simp [hb1, hc]

theorem checkSpent_of_spent (unspent : TxMap) (ins : List TxInput) (i : TxInput)
    (hi : i ∈ ins) (hb : i.IsBase = false) (hk : i.Ref ∉ unspent.keys) :
    SetBatch.checkSpent unspent ins = some errAlreadySpent := by
  rcases checkSpent_cases unspent ins with h | h
  · exact absurd ((checkSpent_eq_none_iff unspent ins).mp h i hi hb) hk
  · exact h

theorem check_eq_none_iff {σ ι : Type} (st : TxStore σ ι) (s : σ) (unspent : TxMap)
    (txs : List Tx) :
    SetBatch.check st s unspent txs = Outcome.returns none ↔
      ∀ tx ∈ txs, st.validateTxInputs s tx = Outcome.returns none ∧
        SetBatch.checkSpent unspent tx.Inputs = none := by
  induction txs with
  | nil => simp [SetBatch.check]
  | cons t txs ih =>
    unfold SetBatch.check
    simp only [List.mem_cons, forall_eq_or_imp]
    cases hv : st.validateTxInputs s t with
    | panics => simp
    | returns r =>
      cases r with
      | some err => simp
      | none =>
        cases hc : SetBatch.checkSpent unspent t.Inputs with
        | some err => simp
        | none => simpa using ih

/-- The outer loop of `SetBatch` panics, reports an error, or finds that every
transaction passes both checks. -/
theorem check_cases {σ ι : Type} (st : TxStore σ ι) (s : σ) (unspent : TxMap)
    (txs : List Tx) :
    SetBatch.check st s unspent txs = Outcome.panics ∨
      (∃ err, SetBatch.check st s unspent txs = Outcome.returns (some err)) ∨
      SetBatch.check st s unspent txs = Outcome.returns none := by
  cases h : SetBatch.check st s unspent txs with
  | panics => exact Or.inl rfl
  | returns r =>
    cases r with
    | some err => exact Or.inr (Or.inl ⟨err, rfl⟩)
    | none => exact Or.inr (Or.inr rfl)

theorem check_spent_after_valid {σ ι : Type} (st : TxStore σ ι) (s : σ) (unspent : TxMap)
    (pre post : List Tx) (tx : Tx)
    (hpre : ∀ t ∈ pre, st.validateTxInputs s t = Outcome.returns none)
    (hv : st.validateTxInputs s tx = Outcome.returns none)
    (hc : SetBatch.checkSpent unspent tx.Inputs = some errAlreadySpent) :
    SetBatch.check st s unspent (pre ++ tx :: post) =
      Outcome.returns (some errAlreadySpent) := by
  induction pre with
  | nil =>
    simp only [List.nil_append]
    unfold SetBatch.check
    simp only [hv, hc]
  | cons t pre ih =>
    simp only [List.cons_append]
    unfold SetBatch.check
    simp only [hpre t (List.mem_cons_self _ _)]
    rcases checkSpent_cases unspent t.Inputs with h | h
    · simp only [h]
      exact ih (fun u hu => hpre u (List.mem_cons_of_mem _ hu))
    · simp only [h]

/-! ## The loop of `validateTxInputs` -/

theorem validateInputs_skip {σ : Type} (S : TxStorage σ) (s : σ) (pre rest : List TxInput)
    (hpre : ∀ j ∈ pre, j.IsBase = true ∨ ∃ txref out, S.Get s j.Ref = Except.ok txref ∧
      sliceIndex txref.Outputs j.Index = some out ∧
      ∀ pk ∈ j.PubKeys, out.PubKeyCanUnlock pk = true) :
    validateInputs S s (pre ++ rest) = validateInputs S s rest := by
  induction pre with
  | nil => rfl
  | cons j pre ih =>
    simp only [List.cons_append]
    conv_lhs => unfold validateInputs
    have ih1 := ih (fun u hu => hpre u (List.mem_cons_of_mem _ hu))
    by_cases hb : j.IsBase = true
    · simp only [hb, if_true]
      exact ih1
    · rcases hpre j (List.mem_cons_self _ _) with h | ⟨txref, out, hg, hi, hk⟩
      · exact absurd h hb
      · have hall : j.PubKeys.all (fun pk => out.PubKeyCanUnlock pk) = true :=
          List.all_eq_true.mpr hk
        simp only [hb, Bool.false_eq_true, if_false, hg, hi, hall, if_true]
        exact ih1

/-! ## Order-independence of `FindUnspent` -/

/-- C1: order-independence of `FindUnspent`. For two iteration orders of the
stored transactions that are permutations of each other, the maps returned by
`FindUnspent` have the same set of keys: a digest is a key of one exactly when
it is a key of the other. -/
theorem FindUnspent_order_independent {σ ι τ κ : Type} (st : TxStore σ ι) (s : σ)
    (st2 : TxStore τ κ) (s2 : τ) (h : (st.tx.Iter s).Perm (st2.tx.Iter s2)) (d : String) :
    d ∈ (st.FindUnspent s).keys ↔ d ∈ (st2.FindUnspent s2).keys := by
  unfold TxStore.FindUnspent
  rw [scan_keys, scan_keys]
  constructor
  · rintro ⟨⟨tx, hm, hd⟩, hns⟩
    exact ⟨⟨tx, h.mem_iff.mp hm, hd⟩, fun u hu => hns u (h.mem_iff.mpr hu)⟩
  · rintro ⟨⟨tx, hm, hd⟩, hns⟩
    exact ⟨⟨tx, h.mem_iff.mpr hm, hd⟩, fun u hu => hns u (h.mem_iff.mp hu)⟩

/-- Witness of C1: the store holding `B` and `T1`, iterated in both orders. -/
theorem FindUnspent_order_independent_witness :
    (stubStore.tx.Iter [txB, txT1]).Perm (stubStore.tx.Iter [txT1, txB]) ∧
      ("t1" ∈ (stubStore.FindUnspent [txB, txT1]).keys ↔
        "t1" ∈ (stubStore.FindUnspent [txT1, txB]).keys) :=
  ⟨List.Perm.swap _ _ _,
    FindUnspent_order_independent stubStore [txB, txT1] stubStore [txT1, txB]
      (List.Perm.swap _ _ _) "t1"⟩

/-! ## Double spends and `SetBatch` -/

/-- C2, as stated, fails: with `T1` spending `(B, 0)` committed, the batch
`[U, T2]`, in which `T2` passes input validation and claims `(B, 0)` again but
is preceded by the unauthorized `U`, is refused with `ErrNotAuthorized`, not
with the already-spent error. -/
theorem SetBatch_cross_batch_counterexample :
    txB ∈ stubStore.tx.Iter [txB, txT1] ∧
      txT1 ∈ stubStore.tx.Iter [txB, txT1] ∧
      (⟨"b", 0, ["A"], false⟩ : TxInput) ∈ txT1.Inputs ∧
      txT2 ∈ [txUnauth, txT2] ∧
      (⟨"b", 0, ["A"], false⟩ : TxInput) ∈ txT2.Inputs ∧
      stubStore.validateTxInputs [txB, txT1] txT2 = Outcome.returns none ∧
      stubStore.SetBatch [txB, txT1] [txUnauth, txT2] =
        Outcome.returns (some Error.ErrNotAuthorized, [txB, txT1]) ∧
      Error.ErrNotAuthorized ≠ errAlreadySpent :=
  ⟨List.mem_cons_self _ _, List.mem_cons_of_mem _ (List.mem_cons_self _ _),
    List.mem_cons_self _ _, List.mem_cons_of_mem _ (List.mem_cons_self _ _),
    List.mem_cons_self _ _, rfl, rfl, by decide⟩

/-- C2, amended: cross-batch double spend is detected by `SetBatch`. If a
non-base transaction `T1` with an input referencing `B` has been committed to
the store, then a later `SetBatch` call with a batch containing a transaction
`T2` that passes input validation and has a non-base input referencing `B`,
every transaction before `T2` in the batch passing input validation, returns
the already-spent error and leaves the store as it was. -/
theorem SetBatch_cross_batch_double_spend {σ ι : Type} (st : TxStore σ ι) (s : σ)
    (B T1 T2 : Tx) (i1 i2 : TxInput) (pre post : List Tx)
    (hT1 : T1 ∈ st.tx.Iter s) (hnb : T1.IsBase = false)
    (hi1 : i1 ∈ T1.Inputs) (hr1 : i1.Ref = B.Digest)
    (hpre : ∀ t ∈ pre, st.validateTxInputs s t = Outcome.returns none)
    (hv : st.validateTxInputs s T2 = Outcome.returns none)
    (hi2 : i2 ∈ T2.Inputs) (hb2 : i2.IsBase = false) (hr2 : i2.Ref = B.Digest) :
    st.SetBatch s (pre ++ T2 :: post) = Outcome.returns (some errAlreadySpent, s) := by
  have hk : i2.Ref ∉ (st.FindUnspent s).keys := by
    unfold TxStore.FindUnspent
    rw [scan_keys, hr2]
    exact fun h => h.2 T1 hT1 ⟨hnb, i1, hi1, hr1⟩
  have hc := checkSpent_of_spent (st.FindUnspent s) T2.Inputs i2 hi2 hb2 hk
  unfold TxStore.SetBatch
  rw [check_spent_after_valid st s _ pre post T2 hpre hv hc]

/-- Witness of C2: `T1` committed, then the batch `[T2]`. -/
theorem SetBatch_cross_batch_double_spend_witness :
    stubStore.SetBatch [txB, txT1] ([] ++ txT2 :: []) =
      Outcome.returns (some errAlreadySpent, [txB, txT1]) :=
  SetBatch_cross_batch_double_spend stubStore [txB, txT1] txB txT1 txT2
    ⟨"b", 0, ["A"], false⟩ ⟨"b", 0, ["A"], false⟩ [] []
    (List.mem_cons_of_mem _ (List.mem_cons_self _ _)) rfl
    (List.mem_cons_self _ _) rfl
    (fun _ h => absurd h (List.not_mem_nil _)) rfl
    (List.mem_cons_self _ _) rfl rfl

/-- C3, as stated, fails: `B` is stored and unspent, the transactions `BC` and
`T2` both pass input validation and both have a non-base input referencing
`(B, 0)`, but `BC` also claims the already spent `(C, 0)`, and the batch
`[BC, T2]` is refused with the already-spent error. -/
theorem SetBatch_intra_batch_counterexample :
    txB ∈ stubStore.tx.Iter [txB, txC, txD] ∧
      "b" ∈ (stubStore.FindUnspent [txB, txC, txD]).keys ∧
      stubStore.validateTxInputs [txB, txC, txD] txBC = Outcome.returns none ∧
      stubStore.validateTxInputs [txB, txC, txD] txT2 = Outcome.returns none ∧
      (⟨"b", 0, ["A"], false⟩ : TxInput) ∈ txBC.Inputs ∧
      (⟨"b", 0, ["A"], false⟩ : TxInput) ∈ txT2.Inputs ∧
      stubStore.SetBatch [txB, txC, txD] [txBC, txT2] =
        Outcome.returns (some errAlreadySpent, [txB, txC, txD]) :=
  ⟨List.mem_cons_self _ _, by decide, rfl, rfl, List.mem_cons_self _ _,
    List.mem_cons_self _ _, rfl⟩

/-- C3, amended: intra-batch double spend is not detected. If `B` is unspent
in the store, and `T1` and `T2` each pass input validation, each have a
non-base input referencing `B`, and have no non-base input referencing a
transaction outside the unspent set, then `SetBatch [T1, T2]` hands the whole
batch to the store and returns the result of the `SetBatch` of the store. -/
theorem SetBatch_intra_batch_double_spend {σ ι : Type} (st : TxStore σ ι) (s : σ)
    (B T1 T2 : Tx) (i1 i2 : TxInput)
    (hB : B.Digest ∈ (st.FindUnspent s).keys)
    (hv1 : st.validateTxInputs s T1 = Outcome.returns none)
    (hv2 : st.validateTxInputs s T2 = Outcome.returns none)
    (hi1 : i1 ∈ T1.Inputs) (hb1 : i1.IsBase = false) (hr1 : i1.Ref = B.Digest)
    (hi2 : i2 ∈ T2.Inputs) (hb2 : i2.IsBase = false) (hr2 : i2.Ref = B.Digest)
    (ho1 : ∀ i ∈ T1.Inputs, i.IsBase = false → i.Ref ≠ B.Digest →
      i.Ref ∈ (st.FindUnspent s).keys)
    (ho2 : ∀ i ∈ T2.Inputs, i.IsBase = false → i.Ref ≠ B.Digest →
      i.Ref ∈ (st.FindUnspent s).keys) :
    st.SetBatch s [T1, T2] = Outcome.returns (st.tx.SetBatch s [T1, T2]) := by
  have hall : ∀ (T : Tx), (∀ i ∈ T.Inputs, i.IsBase = false → i.Ref ≠ B.Digest →
      i.Ref ∈ (st.FindUnspent s).keys) →
      SetBatch.checkSpent (st.FindUnspent s) T.Inputs = none := by
    intro T ho
    rw [checkSpent_eq_none_iff]
    intro i hi hb
    by_cases hr : i.Ref = B.Digest
    · rw [hr]
      exact hB
    · exact ho i hi hb hr
  have hc : SetBatch.check st s (st.FindUnspent s) [T1, T2] = Outcome.returns none := by
    rw [check_eq_none_iff]
    intro tx htx
    rcases List.mem_cons.mp htx with h | h
    · subst h
      exact ⟨hv1, hall _ ho1⟩
    · rcases List.mem_cons.mp h with h | h
      · subst h
        exact ⟨hv2, hall _ ho2⟩
      · exact absurd h (List.not_mem_nil _)
  unfold TxStore.SetBatch
  rw [hc]

/-- Witness of C3: `B` stored and unspent, then the batch `[T1, T2]`. -/
theorem SetBatch_intra_batch_double_spend_witness :
    stubStore.SetBatch [txB] [txT1, txT2] = Outcome.returns (none, [txB, txT1, txT2]) :=
  SetBatch_intra_batch_double_spend stubStore [txB] txB txT1 txT2
    ⟨"b", 0, ["A"], false⟩ ⟨"b", 0, ["A"], false⟩
    (by decide) rfl rfl (List.mem_cons_self _ _) rfl rfl (List.mem_cons_self _ _) rfl rfl
    (by
      intro i hi _ hr
      rcases List.mem_cons.mp hi with h | h
      · subst h
        exact absurd rfl hr
      · exact absurd h (List.not_mem_nil _))
    (by
      intro i hi _ hr
      rcases List.mem_cons.mp hi with h | h
      · subst h
        exact absurd rfl hr
      · exact absurd h (List.not_mem_nil _))

/-! ## Authorization and `Set` -/

/-- C4: authorization failure blocks commit in `Set`. If the inputs of `tx`
are `pre ++ i :: post`, every input of `pre` is valid (a base input, or its
referenced transaction and output exist and all its keys unlock the output),
and `i` is a non-base input whose referenced transaction and output exist and
one of whose listed keys does not unlock that output, then `validateTxInputs`
returns `ErrNotAuthorized`, and `Set` returns `ErrNotAuthorized` with the store
state untouched, whatever the `Set` of the store does. -/
theorem Set_not_authorized {σ ι : Type} (st : TxStore σ ι) (s : σ) (tx : Tx)
    (pre post : List TxInput) (i : TxInput) (txref : Tx) (out : TxOutput) (pk : PublicKey)
    (hin : tx.Inputs = pre ++ i :: post)
    (hpre : ∀ j ∈ pre, j.IsBase = true ∨ ∃ r o, st.tx.Get s j.Ref = Except.ok r ∧
      sliceIndex r.Outputs j.Index = some o ∧ ∀ k ∈ j.PubKeys, o.PubKeyCanUnlock k = true)
    (hb : i.IsBase = false) (hg : st.tx.Get s i.Ref = Except.ok txref)
    (ho : sliceIndex txref.Outputs i.Index = some out)
    (hpk : pk ∈ i.PubKeys) (hno : out.PubKeyCanUnlock pk = false) :
    st.validateTxInputs s tx = Outcome.returns (some Error.ErrNotAuthorized) ∧
      st.Set s tx = Outcome.returns (some Error.ErrNotAuthorized, s) := by
  have hall : i.PubKeys.all (fun k => out.PubKeyCanUnlock k) = false := by
    rw [List.all_eq_false]
    exact ⟨pk, hpk, by simp [hno]⟩
  have hv : st.validateTxInputs s tx = Outcome.returns (some Error.ErrNotAuthorized) := by
    unfold TxStore.validateTxInputs
    rw [hin, validateInputs_skip st.tx s pre (i :: post) hpre]
    unfold validateInputs
    simp only [hb, Bool.false_eq_true, if_false, hg, ho, hall]
  refine ⟨hv, ?_⟩
  unfold TxStore.Set
  rw [hv]

/-- Witness of C4: an input claiming `(B, 0)` with key "C" against an output
unlockable only by "A". -/
theorem Set_not_authorized_witness :
    stubStore.validateTxInputs [txB] txUnauth = Outcome.returns (some Error.ErrNotAuthorized) ∧
      stubStore.Set [txB] txUnauth = Outcome.returns (some Error.ErrNotAuthorized, [txB]) :=
  Set_not_authorized stubStore [txB] txUnauth [] [] ⟨"b", 0, ["C"], false⟩ txB
    (ownedOutput "x" "A") "C" rfl (fun _ h => absurd h (List.not_mem_nil _)) rfl rfl rfl
    (List.mem_cons_self _ _) rfl

/-! ## No write on a failed batch -/

/-- `SetBatch` panics, or returns an error with the store state untouched, or
finds that every transaction of the batch passes both checks and returns what
the `SetBatch` of the store returns for the whole batch. -/
theorem SetBatch_cases {σ ι : Type} (st : TxStore σ ι) (s : σ) (txs : List Tx) :
    st.SetBatch s txs = Outcome.panics ∨
      (∃ err, st.SetBatch s txs = Outcome.returns (some err, s)) ∨
      ((∀ tx ∈ txs, st.validateTxInputs s tx = Outcome.returns none ∧
          ∀ i ∈ tx.Inputs, i.IsBase = false → i.Ref ∈ (st.FindUnspent s).keys) ∧
        st.SetBatch s txs = Outcome.returns (st.tx.SetBatch s txs)) := by
  unfold TxStore.SetBatch
  rcases check_cases st s (st.FindUnspent s) txs with h | ⟨err, h⟩ | h
  · exact Or.inl (by rw [h])
  · exact Or.inr (Or.inl ⟨err, by rw [h]⟩)
  · refine Or.inr (Or.inr ⟨?_, by rw [h]⟩)
    intro tx htx
    have h1 := (check_eq_none_iff st s _ txs).mp h tx htx
    exact ⟨h1.1, (checkSpent_eq_none_iff _ _).mp h1.2⟩

/-- C5 at the failing input: in the store holding `B` and `T1`, the batch
`[O]`, whose transaction has a non-base input with a reference (`b`) that is
not a key of the unspent snapshot, makes `SetBatch` panic at the output index
instead of returning an error. -/
theorem SetBatch_failed_batch_panics :
    "b" ∉ (stubStore.FindUnspent [txB, txT1]).keys ∧
      (⟨"b", 1, ["A"], false⟩ : TxInput) ∈ txOob.Inputs ∧
      stubStore.SetBatch [txB, txT1] [txOob] = Outcome.panics :=
  ⟨by decide, List.mem_cons_self _ _, rfl⟩

/-! ## Output index out of range -/

/-- `validateTxInputs` panics at a non-base input, all earlier inputs being
valid, whose referenced transaction exists and whose index is not a position
of the outputs of that transaction. -/
theorem validateTxInputs_panics {σ ι : Type} (st : TxStore σ ι) (s : σ) (tx : Tx)
    (pre post : List TxInput) (i : TxInput) (txref : Tx)
    (hin : tx.Inputs = pre ++ i :: post)
    (hpre : ∀ j ∈ pre, j.IsBase = true ∨ ∃ r o, st.tx.Get s j.Ref = Except.ok r ∧
      sliceIndex r.Outputs j.Index = some o ∧ ∀ k ∈ j.PubKeys, o.PubKeyCanUnlock k = true)
    (hb : i.IsBase = false) (hg : st.tx.Get s i.Ref = Except.ok txref)
    (ho : i.Index < 0 ∨ (txref.Outputs.length : Int) ≤ i.Index) :
    st.validateTxInputs s tx = Outcome.panics := by
  have hidx : sliceIndex txref.Outputs i.Index = none := by
    cases hx : i.Index with
    | ofNat n =>
      rw [hx] at ho
      have hn : txref.Outputs.length ≤ n := by
        rcases ho with h | h
        · exact absurd h (by simp)
        · exact Int.ofNat_le.mp h
      simp [sliceIndex, List.getElem?_eq_none, hn]
    | negSucc n => rfl
  unfold TxStore.validateTxInputs
  rw [hin, validateInputs_skip st.tx s pre (i :: post) hpre]
  unfold validateInputs
  simp only [hb, Bool.false_eq_true, if_false, hg, hidx]

/-- C6 at the failing input: in the store holding `B`, whose outputs have
position 0 only, the transaction claiming `(B, 1)` makes `validateTxInputs`
panic instead of returning an error, and so do `Set` and `SetBatch`; the
transaction claiming `(B, -1)` makes `validateTxInputs` panic as well. -/
theorem validateTxInputs_out_of_range_panics :
    stubStore.tx.Get [txB] "b" = Except.ok txB ∧
      txB.Outputs.length = 1 ∧
      stubStore.validateTxInputs [txB] txOob = Outcome.panics ∧
      stubStore.Set [txB] txOob = Outcome.panics ∧
      stubStore.SetBatch [txB] [txOob] = Outcome.panics ∧
      stubStore.validateTxInputs [txB] txNeg = Outcome.panics :=
  ⟨rfl, rfl, rfl, rfl, rfl, rfl⟩

/-! ## Characterisation of the unspent set -/

/-- C7, as stated, fails in both directions, in a store with pairwise distinct
digests: `b` is a key although the stored transaction `G`, flagged base, has
an input referencing it, and `s` is not a key although no other stored
transaction references it (its own input does). -/
theorem FindUnspent_exact_counterexample :
    ((stubStore.tx.Iter [txB, txG, txSelf]).map Tx.Digest).Nodup ∧
      ("b" ∈ (stubStore.FindUnspent [txB, txG, txSelf]).keys ∧
        ∃ u ∈ stubStore.tx.Iter [txB, txG, txSelf],
          u.Digest ≠ "b" ∧ ∃ i ∈ u.Inputs, i.Ref = "b") ∧
      ("s" ∉ (stubStore.FindUnspent [txB, txG, txSelf]).keys ∧
        ∃ tx ∈ stubStore.tx.Iter [txB, txG, txSelf], tx.Digest = "s" ∧
          ∀ u ∈ stubStore.tx.Iter [txB, txG, txSelf],
            u.Digest ≠ tx.Digest → ∀ i ∈ u.Inputs, i.Ref ≠ "s") := by
  refine ⟨by decide, ⟨by decide, txG, ?_, by decide, ⟨"b", 0, [], true⟩, ?_, rfl⟩,
    by decide, txSelf, ?_, rfl, ?_⟩
  · exact List.mem_cons_of_mem _ (List.mem_cons_self _ _)
  · exact List.mem_cons_self _ _
  · exact List.mem_cons_of_mem _ (List.mem_cons_of_mem _ (List.mem_cons_self _ _))
  · intro u hu hne i hi
    rcases List.mem_cons.mp hu with h | h
    · subst h
      rcases List.mem_cons.mp hi with h1 | h1
      · subst h1
        decide
      · exact absurd h1 (List.not_mem_nil _)
    · rcases List.mem_cons.mp h with h | h
      · subst h
        rcases List.mem_cons.mp hi with h1 | h1
        · subst h1
          decide
        · exact absurd h1 (List.not_mem_nil _)
      · rcases List.mem_cons.mp h with h | h
        · subst h
          exact absurd rfl hne
        · exact absurd h (List.not_mem_nil _)

/-- C7, amended: exact characterisation of the unspent set. In a store with
pairwise distinct digests, the keys of the map returned by `FindUnspent` are
exactly the digests of the stored transactions that are not referenced by any
input of any stored non-base transaction (the transaction itself included), and
the map sends each such digest to the stored transaction with that digest. -/
theorem FindUnspent_exact {σ ι : Type} (st : TxStore σ ι) (s : σ)
    (hd : ((st.tx.Iter s).map Tx.Digest).Nodup) :
    (∀ d, d ∈ (st.FindUnspent s).keys ↔
      ∃ tx ∈ st.tx.Iter s, tx.Digest = d ∧
        ∀ u ∈ st.tx.Iter s, u.IsBase = false → ∀ i ∈ u.Inputs, i.Ref ≠ d) ∧
      (∀ tx ∈ st.tx.Iter s,
        (∀ u ∈ st.tx.Iter s, u.IsBase = false → ∀ i ∈ u.Inputs, i.Ref ≠ tx.Digest) →
        (st.FindUnspent s).lookup tx.Digest = some tx) := by
  unfold TxStore.FindUnspent
  constructor
  · intro d
    rw [scan_keys]
    constructor
    · rintro ⟨⟨tx, hm, hdg⟩, hns⟩
      exact ⟨tx, hm, hdg, fun u hu hb i hi hr => hns u hu ⟨hb, i, hi, hr⟩⟩
    · rintro ⟨tx, hm, hdg, hns⟩
      exact ⟨⟨tx, hm, hdg⟩, fun u hu hsp =>
        hsp.2.elim (fun i hi => hns u hu hsp.1 i hi.1 hi.2)⟩
  · intro tx hm hns
    apply scan_lookup _ tx hm
    · exact fun u hu hsp => hsp.2.elim (fun i hi => hns u hu hsp.1 i hi.1 hi.2)
    · exact fun t ht hdg => List.inj_on_of_nodup_map hd ht hm hdg

/-- Witness of C7: the store holding `B`, `G` and the self-referencing
transaction, at the digest of `B`. -/
theorem FindUnspent_exact_witness :
    ((stubStore.tx.Iter [txB, txG, txSelf]).map Tx.Digest).Nodup ∧
      ("b" ∈ (stubStore.FindUnspent [txB, txG, txSelf]).keys ↔
        ∃ tx ∈ stubStore.tx.Iter [txB, txG, txSelf], tx.Digest = "b" ∧
          ∀ u ∈ stubStore.tx.Iter [txB, txG, txSelf], u.IsBase = false →
            ∀ i ∈ u.Inputs, i.Ref ≠ "b") :=
  ⟨by decide, (FindUnspent_exact stubStore [txB, txG, txSelf] (by decide)).1 "b"⟩

/-- C8: single spend removes the source. In a store holding exactly a base
transaction `B` and a non-base transaction `T` whose sole input references
`(B, 0)`, with distinct digests, the map returned by `FindUnspent` has the
digest of `T` as a key and has not the digest of `B` as a key. -/
theorem FindUnspent_single_spend {σ ι : Type} (st : TxStore σ ι) (s : σ) (B T : Tx)
    (i : TxInput) (hs : (st.tx.Iter s).Perm [B, T]) (hB : B.IsBase = true)
    (hT : T.IsBase = false) (hi : T.Inputs = [i]) (hr : i.Ref = B.Digest)
    (hx : i.Index = 0) (hd : B.Digest ≠ T.Digest) :
    T.Digest ∈ (st.FindUnspent s).keys ∧ B.Digest ∉ (st.FindUnspent s).keys := by
  unfold TxStore.FindUnspent
  rw [scan_keys, scan_keys]
  have hTm : T ∈ st.tx.Iter s := hs.mem_iff.mpr (List.mem_cons_of_mem _ (List.mem_cons_self _ _))
  constructor
  · refine ⟨⟨T, hTm, rfl⟩, ?_⟩
    intro u hu hsp
    rcases List.mem_cons.mp (hs.mem_iff.mp hu) with h | h
    · subst h
      have hf := hsp.1
      rw [hB] at hf
      exact Bool.noConfusion hf
    · rcases List.mem_cons.mp h with h | h
      · subst h
        obtain ⟨_, j, hj, hjr⟩ := hsp
        rw [hi] at hj
        rcases List.mem_cons.mp hj with h1 | h1
        · subst h1
          exact hd (hr.symm.trans hjr)
        · exact absurd h1 (List.not_mem_nil _)
      · exact absurd h (List.not_mem_nil _)
  · intro h
    exact h.2 T hTm ⟨hT, i, by rw [hi]; exact List.mem_cons_self _ _, hr⟩

/-- Witness of C8: the store holding `B` and `T1`. -/
theorem FindUnspent_single_spend_witness :
    txT1.Digest ∈ (stubStore.FindUnspent [txB, txT1]).keys ∧
      txB.Digest ∉ (stubStore.FindUnspent [txB, txT1]).keys :=
  FindUnspent_single_spend stubStore [txB, txT1] txB txT1 ⟨"b", 0, ["A"], false⟩
    (List.Perm.refl _) rfl rfl rfl rfl rfl (by decide)

/-- C9: whole-transaction spend granularity. If the store holds a transaction
`B` with two or more outputs and a non-base transaction with an input
referencing `B`, at whatever index, the digest of `B` is not a key of the map
returned by `FindUnspent`. -/
theorem FindUnspent_whole_tx_granularity {σ ι : Type} (st : TxStore σ ι) (s : σ)
    (B T : Tx) (i : TxInput) (hB : B ∈ st.tx.Iter s) (ho : 2 ≤ B.Outputs.length)
    (hT : T ∈ st.tx.Iter s) (hnb : T.IsBase = false) (hi : i ∈ T.Inputs)
    (hr : i.Ref = B.Digest) :
    B.Digest ∉ (st.FindUnspent s).keys ∧ (st.FindUnspent s).lookup B.Digest = none := by
  have hk : B.Digest ∉ (st.FindUnspent s).keys := by
    unfold TxStore.FindUnspent
    rw [scan_keys]
    exact fun h => h.2 T hT ⟨hnb, i, hi, hr⟩
  refine ⟨hk, ?_⟩
  cases hl : (st.FindUnspent s).lookup B.Digest with
  | none => rfl
  | some v =>
    exact absurd ((TxMap.lookup_isSome_iff _ _).mp (by rw [hl]; rfl)) hk

/-- Witness of C9: `B2` has two outputs and `S2` claims output 0 only. -/
theorem FindUnspent_whole_tx_granularity_witness :
    txB2.Digest ∉ (stubStore.FindUnspent [txB2, txS2]).keys ∧
      (stubStore.FindUnspent [txB2, txS2]).lookup txB2.Digest = none :=
  FindUnspent_whole_tx_granularity stubStore [txB2, txS2] txB2 txS2
    ⟨"b2", 0, ["A"], false⟩ (List.mem_cons_self _ _) (by decide)
    (List.mem_cons_of_mem _ (List.mem_cons_self _ _)) rfl (List.mem_cons_self _ _) rfl

/-- C10: base transaction always eligible. In a store whose transactions have
pairwise distinct digests (the digest is the primary key of the store), if `B`
is a stored base transaction and no stored transaction has an input
referencing the digest of `B`, then the digest of `B` is a key of the map
returned by `FindUnspent`, and the map sends it to `B`. -/
theorem FindUnspent_base_eligible {σ ι : Type} (st : TxStore σ ι) (s : σ) (B : Tx)
    (hd : ((st.tx.Iter s).map Tx.Digest).Nodup)
    (hB : B ∈ st.tx.Iter s) (hbase : B.IsBase = true)
    (hnr : ∀ u ∈ st.tx.Iter s, ∀ i ∈ u.Inputs, i.Ref ≠ B.Digest) :
    B.Digest ∈ (st.FindUnspent s).keys ∧
      (st.FindUnspent s).lookup B.Digest = some B := by
  have hns : ∀ u ∈ st.tx.Iter s, ¬ u.Spends B.Digest :=
    fun u hu hsp => hsp.2.elim (fun i hi => hnr u hu i hi.1 hi.2)
  unfold TxStore.FindUnspent
  constructor
  · rw [scan_keys]
    exact ⟨⟨B, hB, rfl⟩, hns⟩
  · exact scan_lookup _ B hB hns (fun t ht hdg => List.inj_on_of_nodup_map hd ht hB hdg)

/-- Witness of C10: the store holding the base transactions `B` and `C`. -/
theorem FindUnspent_base_eligible_witness :
    ((stubStore.tx.Iter [txB, txC]).map Tx.Digest).Nodup ∧
      txB.Digest ∈ (stubStore.FindUnspent [txB, txC]).keys ∧
      (stubStore.FindUnspent [txB, txC]).lookup txB.Digest = some txB :=
  ⟨by decide,
    FindUnspent_base_eligible stubStore [txB, txC] txB (by decide)
      (List.mem_cons_self _ _) rfl
      (by
        intro u hu i hi
        rcases List.mem_cons.mp hu with h | h
        · subst h
          rcases List.mem_cons.mp hi with h1 | h1
          · subst h1
            decide
          · exact absurd h1 (List.not_mem_nil _)
        · rcases List.mem_cons.mp h with h | h
          · subst h
            rcases List.mem_cons.mp hi with h1 | h1
            · subst h1
              decide
            · exact absurd h1 (List.not_mem_nil _)
          · exact absurd h (List.not_mem_nil _))⟩

/-! ## `FindUTX` as a filter of `FindUnspent` -/

theorem dropKey_keys_nodup (k : String) (es : List (String × Tx))
    (h : (es.map Prod.fst).Nodup) : ((dropKey k es).map Prod.fst).Nodup := by
  induction es with
  | nil => simp [dropKey]
  | cons e es ih =>
    rw [List.map_cons, List.nodup_cons] at h
    unfold dropKey
    by_cases hk : e.1 = k
    · rw [if_pos hk]
      exact ih h.2
    · rw [if_neg hk, List.map_cons, List.nodup_cons]
      exact ⟨fun hm => h.1 ((mem_keys_dropKey k e.1 es).mp hm).1, ih h.2⟩

theorem TxMap.insert_keys_nodup (m : TxMap) (k : String) (v : Tx) (h : m.keys.Nodup) :
    (m.insert k v).keys.Nodup := by
  simp only [TxMap.keys, TxMap.insert, List.map_cons, List.nodup_cons]
  exact ⟨fun hm => ((mem_keys_dropKey k k m.entries).mp hm).2 rfl,
    dropKey_keys_nodup k m.entries h⟩

theorem TxMap.delete_keys_nodup (m : TxMap) (k : String) (h : m.keys.Nodup) :
    (m.delete k).keys.Nodup :=
  dropKey_keys_nodup k m.entries h

theorem mark_foldl_nodup (ins : List TxInput) (acc : Scan) (h : acc.unspent.keys.Nodup) :
    (ins.foldl FindUnspent.mark acc).unspent.keys.Nodup := by
  induction ins generalizing acc with
  | nil => exact h
  | cons i ins ih =>
    rw [List.foldl_cons]
    exact ih _ (TxMap.delete_keys_nodup _ _ h)

theorem visit_nodup (acc : Scan) (tx : Tx) (h : acc.unspent.keys.Nodup) :
    (FindUnspent.visit acc tx).unspent.keys.Nodup := by
  have h1 : (if tx.Digest ∈ acc.spent then acc
      else (⟨acc.unspent.insert tx.Digest tx, acc.spent⟩ : Scan)).unspent.keys.Nodup := by
    by_cases hs : tx.Digest ∈ acc.spent
    · rw [if_pos hs]
      exact h
    · rw [if_neg hs]
      exact TxMap.insert_keys_nodup _ _ _ h
  unfold FindUnspent.visit
  by_cases hb : tx.IsBase = true
  · simp only [hb, if_true]
    exact h1
  · simp only [hb, if_false]
    exact mark_foldl_nodup _ _ h1

/-- The map built by the scan of `FindUnspent` holds every key once. -/
theorem scan_nodup (txs : List Tx) : (FindUnspent.scan txs).unspent.keys.Nodup := by
  have key : ∀ (l : List Tx) (acc : Scan), acc.unspent.keys.Nodup →
      (l.foldl FindUnspent.visit acc).unspent.keys.Nodup := by
    intro l
    induction l with
    | nil => exact fun _ h => h
    | cons t l ih =>
      intro acc h
      rw [List.foldl_cons]
      exact ih _ (visit_nodup acc t h)
  exact key txs _ (by simp [TxMap.keys, TxMap.empty])

theorem findKey_mem {k : String} {v : Tx} (es : List (String × Tx))
    (h : findKey k es = some v) : (k, v) ∈ es := by
  induction es with
  | nil => simp [findKey] at h
  | cons e es ih =>
    unfold findKey at h
    by_cases hk : e.1 = k
    · rw [if_pos hk] at h
      have hv : e.2 = v := Option.some.inj h
      have he : e = (k, v) := by rw [← hk, ← hv]
      rw [he]
      exact List.mem_cons_self _ _
    · rw [if_neg hk] at h
      exact List.mem_cons_of_mem _ (ih h)

theorem findKey_of_mem_nodup {k : String} {v : Tx} (es : List (String × Tx))
    (hn : (es.map Prod.fst).Nodup) (h : (k, v) ∈ es) : findKey k es = some v := by
  induction es with
  | nil => exact absurd h (List.not_mem_nil _)
  | cons e es ih =>
    rw [List.map_cons, List.nodup_cons] at hn
    unfold findKey
    rcases List.mem_cons.mp h with he | he
    · rw [← he]
      simp
    · have hk : ¬ e.1 = k := by
        intro hk
        apply hn.1
        rw [hk]
        exact List.mem_map_of_mem Prod.fst he
      rw [if_neg hk]
      exact ih hn.2 he

theorem TxMap.lookup_delete_self (m : TxMap) (k : String) :
    (m.delete k).lookup k = none :=
  findKey_dropKey_self k m.entries

theorem filter_lookup_of_ne (pk : PublicKey) (m : TxMap) (e : String × Tx) (d : String)
    (h : e.1 = d → e.2.Outputs.all (fun out => out.PubKeyCanUnlock pk) = true) :
    (FindUTX.filter pk m e).lookup d = m.lookup d := by
  unfold FindUTX.filter
  by_cases ha : e.2.Outputs.all (fun out => out.PubKeyCanUnlock pk) = true
  · rw [if_pos ha]
  · rw [if_neg ha]
    exact TxMap.lookup_delete_of_ne m (fun hd => ha (h hd.symm))

theorem filter_lookup_none (pk : PublicKey) (m : TxMap) (e : String × Tx) (d : String)
    (h : m.lookup d = none) : (FindUTX.filter pk m e).lookup d = none := by
  unfold FindUTX.filter
  by_cases ha : e.2.Outputs.all (fun out => out.PubKeyCanUnlock pk) = true
  · rw [if_pos ha]
    exact h
  · rw [if_neg ha]
    by_cases hd : d = e.1
    · rw [hd]
      exact TxMap.lookup_delete_self m e.1
    · rw [TxMap.lookup_delete_of_ne m hd]
      exact h

theorem filter_foldl_none (pk : PublicKey) (l : List (String × Tx)) (m : TxMap) (d : String)
    (h : m.lookup d = none) : (l.foldl (FindUTX.filter pk) m).lookup d = none := by
  induction l generalizing m with
  | nil => exact h
  | cons e l ih =>
    rw [List.foldl_cons]
    exact ih _ (filter_lookup_none pk m e d h)

theorem filter_foldl_kept (pk : PublicKey) (l : List (String × Tx)) (m : TxMap) (d : String)
    (h : ∀ e ∈ l, e.1 = d → e.2.Outputs.all (fun out => out.PubKeyCanUnlock pk) = true) :
    (l.foldl (FindUTX.filter pk) m).lookup d = m.lookup d := by
  induction l generalizing m with
  | nil => rfl
  | cons e l ih =>
    rw [List.foldl_cons, ih _ (fun u hu => h u (List.mem_cons_of_mem _ hu))]
    exact filter_lookup_of_ne pk m e d (h e (List.mem_cons_self _ _))

theorem filter_foldl_dropped (pk : PublicKey) (l : List (String × Tx)) (m : TxMap) (d : String)
    (h : ∃ e ∈ l, e.1 = d ∧ e.2.Outputs.all (fun out => out.PubKeyCanUnlock pk) = false) :
    (l.foldl (FindUTX.filter pk) m).lookup d = none := by
  induction l generalizing m with
  | nil =>
    obtain ⟨e, he, _⟩ := h
    exact absurd he (List.not_mem_nil _)
  | cons e l ih =>
    rw [List.foldl_cons]
    obtain ⟨u, hu, hd, ha⟩ := h
    rcases List.mem_cons.mp hu with h1 | h1
    · apply filter_foldl_none
      rw [← h1]
      unfold FindUTX.filter
      rw [if_neg (by rw [ha]; exact Bool.false_ne_true), ← hd]
      exact TxMap.lookup_delete_self m u.1
    · exact ih _ ⟨u, h1, hd, ha⟩

/-- C11: `FindUTX` is the ownership filter of `FindUnspent`. For every store
and every public key, the map returned by `FindUTX` sends a digest to a
transaction exactly when the map of `FindUnspent` does and every output of
that transaction can be unlocked by the key; an entry of the map of
`FindUnspent` is dropped exactly when one of its outputs cannot be unlocked. -/
theorem FindUTX_ownership_filter {σ ι : Type} (st : TxStore σ ι) (s : σ) (pk : PublicKey) :
    (∀ d tx, (st.FindUTX s pk).lookup d = some tx ↔
      (st.FindUnspent s).lookup d = some tx ∧
        ∀ out ∈ tx.Outputs, out.PubKeyCanUnlock pk = true) ∧
    (∀ d tx, (st.FindUnspent s).lookup d = some tx →
      ((st.FindUTX s pk).lookup d = none ↔
        ∃ out ∈ tx.Outputs, out.PubKeyCanUnlock pk = false)) := by
  have hn : ((st.FindUnspent s).entries.map Prod.fst).Nodup := scan_nodup (st.tx.Iter s)
  have key : ∀ d tx, (st.FindUnspent s).lookup d = some tx →
      (st.FindUTX s pk).lookup d =
        if tx.Outputs.all (fun out => out.PubKeyCanUnlock pk) = true then some tx else none := by
    intro d tx hl
    have hm : (d, tx) ∈ (st.FindUnspent s).entries := findKey_mem _ hl
    unfold TxStore.FindUTX
    by_cases ha : tx.Outputs.all (fun out => out.PubKeyCanUnlock pk) = true
    · rw [if_pos ha, filter_foldl_kept pk _ _ d, hl]
      intro e he hd
      have he2 : findKey d (st.FindUnspent s).entries = some e.2 :=
        findKey_of_mem_nodup _ hn (by rw [← hd]; exact he)
      have hv : e.2 = tx := Option.some.inj (he2.symm.trans hl)
      rw [hv]
      exact ha
    · rw [if_neg ha]
      exact filter_foldl_dropped pk _ _ d ⟨(d, tx), hm, rfl, by simpa using ha⟩
  constructor
  · intro d tx
    constructor
    · intro h
      cases hl : (st.FindUnspent s).lookup d with
      | none =>
        have h0 : (st.FindUTX s pk).lookup d = none := by
          unfold TxStore.FindUTX
          exact filter_foldl_none pk _ _ d hl
        rw [h0] at h
        exact Option.noConfusion h
      | some v =>
        rw [key d v hl] at h
        by_cases ha : v.Outputs.all (fun out => out.PubKeyCanUnlock pk) = true
        · rw [if_pos ha] at h
          have hv : v = tx := Option.some.inj h
          rw [← hv]
          exact ⟨rfl, fun out ho => List.all_eq_true.mp ha out ho⟩
        · rw [if_neg ha] at h
          exact Option.noConfusion h
    · rintro ⟨hl, ha⟩
      rw [key d tx hl, if_pos (List.all_eq_true.mpr ha)]
  · intro d tx hl
    rw [key d tx hl]
    by_cases ha : tx.Outputs.all (fun out => out.PubKeyCanUnlock pk) = true
    · rw [if_pos ha]
      constructor
      · intro h
        exact Option.noConfusion h
      · rintro ⟨out, ho, hf⟩
        rw [List.all_eq_true.mp ha out ho] at hf
        exact Bool.noConfusion hf
    · rw [if_neg ha]
      constructor
      · intro _
        have hf : tx.Outputs.all (fun out => out.PubKeyCanUnlock pk) = false := by simpa using ha
        obtain ⟨out, ho, hx⟩ := List.all_eq_false.mp hf
        exact ⟨out, ho, by simpa using hx⟩
      · intro _
        rfl

/-- Witness of C11: `B` is unlockable by "A" and `A2` is not. -/
theorem FindUTX_ownership_filter_witness :
    (stubStore.FindUnspent [txB, txA2]).lookup "a2" = some txA2 ∧
      (stubStore.FindUTX [txB, txA2] "A").lookup "a2" = none ∧
      (stubStore.FindUTX [txB, txA2] "A").lookup "b" = some txB :=
  ⟨rfl,
    ((FindUTX_ownership_filter stubStore [txB, txA2] "A").2 "a2" txA2 rfl).mpr
      ⟨ownedOutput "x" "Z", List.mem_cons_self _ _, by decide⟩,
    ((FindUTX_ownership_filter stubStore [txB, txA2] "A").1 "b" txB).mpr
      ⟨rfl, by
        intro out ho
        rcases List.mem_cons.mp ho with h | h
        · subst h
          decide
        · exact absurd h (List.not_mem_nil _)⟩⟩

/-! ## The data-key index -/

theorem stubIndex_lawful : stubIndex.Lawful := by
  intro x k d i x1 h
  have hx : x1 = (k, d, i) :: x := by
    have h1 : (none, (k, d, i) :: x) = ((none : Option Error), x1) := h
    exact (Prod.mk.inj h1).2.symm
  subst hx
  constructor
  · simp [stubIndex]
  · intro k2 hk
    have hk1 : ¬ k = k2 := fun h1 => hk h1.symm
    simp [stubIndex, hk1]

theorem int32_of_lt (p : Nat) (h : p < 2147483648) : int32 (0 + (p : Int)) = (p : Int) := by
  unfold int32
  omega

theorem indexTxos_outputs_get {ι : Type} (D : DataKeyIndex ι) (hl : D.Lawful) (dg : Digest)
    (k : DataKey) (outs : List TxOutput) :
    ∀ (x : ι) (i : Int) (x1 : ι), indexTxos.outputs D dg x i outs = (none, x1) →
      ((∀ o ∈ outs, o.DataKey ≠ k) → D.Get x1 k = D.Get x k) ∧
      (∀ (p : Nat) (o : TxOutput), outs.get? p = some o → o.DataKey = k →
        (∀ (q : Nat) (o2 : TxOutput), p < q → outs.get? q = some o2 → o2.DataKey ≠ k) →
        D.Get x1 k = Except.ok (dg, int32 (i + (p : Int)))) := by
  induction outs with
  | nil =>
    intro x i x1 h
    have hx : x1 = x := (Prod.mk.inj h).2.symm
    subst hx
    exact ⟨fun _ => rfl, fun p o hp => by simp at hp⟩
  | cons txo rest ih =>
    intro x i x1 h
    unfold indexTxos.outputs at h
    cases hS : D.Set x txo.DataKey dg (int32 i) with
    | mk e x2 =>
      rw [hS] at h
      cases e with
      | some err => exact absurd (Prod.mk.inj h).1 (by simp)
      | none =>
        simp only at h
        have hlaw := hl x txo.DataKey dg (int32 i) x2 hS
        have ih1 := ih x2 (i + 1) x1 h
        constructor
        · intro hne
          rw [ih1.1 (fun o ho => hne o (List.mem_cons_of_mem _ ho))]
          exact hlaw.2 k (fun hk => hne txo (List.mem_cons_self _ _) hk.symm)
        · intro p o hp hk hlast
          cases p with
          | zero =>
            have ho : txo = o := by simpa using hp
            have hrest : ∀ o2 ∈ rest, o2.DataKey ≠ k := by
              intro o2 ho2
              obtain ⟨n, hn⟩ := List.mem_iff_get?.mp ho2
              exact hlast (n + 1) o2 (Nat.succ_pos n) (by simpa using hn)
            rw [ih1.1 hrest]
            have hk2 : txo.DataKey = k := by rw [ho]; exact hk
            rw [← hk2]
            simpa using hlaw.1
          | succ n =>
            have hp1 : rest.get? n = some o := by simpa using hp
            have h2 := ih1.2 n o hp1 hk (fun q o2 hq hq2 =>
              hlast (q + 1) o2 (Nat.succ_lt_succ hq) (by simpa using hq2))
            rw [h2]
            have harith : i + 1 + (n : Int) = i + ((n + 1 : Nat) : Int) := by
              push_cast
              ring
            rw [harith]

/-- C12, as stated, fails: the stored transaction `KK` has an output with data
key "k" at position 0 (and another one at position 1), `indexTxos [KK]`
succeeds, and `GetDataKeyTx "k"` returns position 1, not position 0. -/
theorem GetDataKeyTx_round_trip_counterexample :
    stubStore.tx.Get [txKK] txKK.Digest = Except.ok txKK ∧
      (txKK.Outputs.get? 0).map TxOutput.DataKey = some "k" ∧
      (stubStore.indexTxos [] [txKK]).1 = none ∧
      stubStore.GetDataKeyTx [txKK] (stubStore.indexTxos [] [txKK]).2 "k" =
        (some txKK, 1, none) ∧
      (stubStore.GetDataKeyTx [txKK] (stubStore.indexTxos [] [txKK]).2 "k").2.1 ≠ 0 :=
  ⟨rfl, rfl, rfl, rfl, by decide⟩

/-- C12, amended: data-key resolution round trip. If the store yields `T` for
the digest of `T`, `T` has an output with data key `k` at position `p` (an
`int32`) and no output with data key `k` at a later position, and
`indexTxos [T]` succeeds on an index that yields for a key what was last set
for it, then `GetDataKeyTx k` returns `T` and `p` with no error. -/
theorem GetDataKeyTx_round_trip {σ ι : Type} (st : TxStore σ ι) (hlaw : st.dki.Lawful)
    (s : σ) (x x1 : ι) (T : Tx) (k : DataKey) (p : Nat) (o : TxOutput)
    (hT : st.tx.Get s T.Digest = Except.ok T)
    (hp : T.Outputs.get? p = some o) (hk : o.DataKey = k)
    (hlast : ∀ (q : Nat) (o2 : TxOutput), p < q → T.Outputs.get? q = some o2 → o2.DataKey ≠ k)
    (h32 : p < 2147483648)
    (hidx : st.indexTxos x [T] = (none, x1)) :
    st.GetDataKeyTx s x1 k = (some T, (p : Int), none) := by
  unfold TxStore.indexTxos at hidx
  cases ho : indexTxos.outputs st.dki T.Digest x 0 T.Outputs with
  | mk e x2 =>
    rw [ho] at hidx
    cases e with
    | some err => exact absurd (Prod.mk.inj hidx).1 (by simp)
    | none =>
      have hx : x2 = x1 := by
        simp only [TxStore.indexTxos] at hidx
        exact (Prod.mk.inj hidx).2
      subst hx
      have hg := (indexTxos_outputs_get st.dki hlaw T.Digest k T.Outputs x 0 x2 ho).2
        p o hp hk hlast
      rw [int32_of_lt p h32] at hg
      unfold TxStore.GetDataKeyTx
      rw [hg]
      simp only [hT]

/-- Witness of C12: `B2` has the data key "y" at position 1. -/
theorem GetDataKeyTx_round_trip_witness :
    stubStore.GetDataKeyTx [txB2] (stubStore.indexTxos [] [txB2]).2 "y" =
      (some txB2, ((1 : Nat) : Int), none) :=
  GetDataKeyTx_round_trip stubStore stubIndex_lawful [txB2] [] _ txB2 "y" 1
    (ownedOutput "y" "A") rfl rfl rfl
    (by
      intro q o2 hq h2
      have hq2 : txB2.Outputs.length ≤ q := hq
      rw [List.get?_eq_none.mpr hq2] at h2
      exact Option.noConfusion h2)
    (by decide) rfl

/-- C13: lookup and failure of `GetDataKeyTx`. If the index lookup of the key
fails, `GetDataKeyTx` returns that error with no transaction and index `-1`,
whatever the store; if the index yields `(ref, i)`, it returns the index `i`
with the transaction that the `Get` of the store yields for `ref` and no
error, or with no transaction and the error of that `Get`. -/
theorem GetDataKeyTx_lookup {σ ι : Type} (st : TxStore σ ι) (s : σ) (x : ι) (key : DataKey) :
    (∀ err, st.dki.Get x key = Except.error err →
      st.GetDataKeyTx s x key = (none, -1, some err)) ∧
    (∀ ref i, st.dki.Get x key = Except.ok (ref, i) →
      (∀ tx, st.tx.Get s ref = Except.ok tx →
        st.GetDataKeyTx s x key = (some tx, i, none)) ∧
      (∀ err, st.tx.Get s ref = Except.error err →
        st.GetDataKeyTx s x key = (none, i, some err))) := by
  refine ⟨?_, ?_⟩
  · intro err h
    unfold TxStore.GetDataKeyTx
    rw [h]
  · intro ref i h
    constructor
    · intro tx ht
      unfold TxStore.GetDataKeyTx
      rw [h]
      simp only [ht]
    · intro err ht
      unfold TxStore.GetDataKeyTx
      rw [h]
      simp only [ht]

/-- Witness of C13: the key "x" is indexed to `(b, 0)` and `B` is stored; the
key "q" is not indexed; the key "z" is indexed to a digest that is not stored. -/
theorem GetDataKeyTx_lookup_witness :
    stubStore.GetDataKeyTx [txB] [("x", "b", 0), ("z", "zz", 3)] "x" = (some txB, 0, none) ∧
      stubStore.GetDataKeyTx [txB] [("x", "b", 0), ("z", "zz", 3)] "q" =
        (none, -1, some (Error.external 404)) ∧
      stubStore.GetDataKeyTx [txB] [("x", "b", 0), ("z", "zz", 3)] "z" =
        (none, 3, some (Error.external 404)) :=
  ⟨((GetDataKeyTx_lookup stubStore [txB] [("x", "b", 0), ("z", "zz", 3)] "x").2
      "b" 0 rfl).1 txB rfl,
    (GetDataKeyTx_lookup stubStore [txB] [("x", "b", 0), ("z", "zz", 3)] "q").1
      (Error.external 404) rfl,
    ((GetDataKeyTx_lookup stubStore [txB] [("x", "b", 0), ("z", "zz", 3)] "z").2
      "zz" 3 rfl).2 (Error.external 404) rfl⟩

/-! ## Reference definition of `validateTxInputs` -/

theorem validateInputs_eq_none {σ : Type} (S : TxStorage σ) (s : σ) (ins : List TxInput)
    (h : validateInputs S s ins = Outcome.returns none) : ∀ j ∈ ins, InputValid S s j := by
  induction ins with
  | nil => exact fun j hj => absurd hj (List.not_mem_nil _)
  | cons i rest ih =>
    unfold validateInputs at h
    by_cases hb : i.IsBase = true
    · rw [if_pos hb] at h
      intro j hj
      rcases List.mem_cons.mp hj with h1 | h1
      · rw [h1]
        exact Or.inl hb
      · exact ih h j h1
    · rw [if_neg hb] at h
      cases hg : S.Get s i.Ref with
      | error err =>
        rw [hg] at h
        simp at h
      | ok r =>
        simp only [hg] at h
        cases ho : sliceIndex r.Outputs i.Index with
        | none =>
          simp only [ho] at h
          exact Outcome.noConfusion h
        | some o =>
          simp only [ho] at h
          by_cases ha : i.PubKeys.all (fun pk => o.PubKeyCanUnlock pk) = true
          · simp only [ha, if_true] at h
            intro j hj
            rcases List.mem_cons.mp hj with h1 | h1
            · rw [h1]
              exact Or.inr ⟨r, o, hg, ho, fun k hk => List.all_eq_true.mp ha k hk⟩
            · exact ih h j h1
          · simp only [ha] at h
            simp at h

/-- The loop of `validateTxInputs`, on inputs with in-range indices, returns
nil, or stops at a first input that is not valid and returns its error. -/
theorem validateInputs_cases {σ : Type} (S : TxStorage σ) (s : σ) (ins : List TxInput)
    (hrange : ∀ i ∈ ins, i.IsBase = false → ∀ r, S.Get s i.Ref = Except.ok r →
      ∃ o, sliceIndex r.Outputs i.Index = some o) :
    validateInputs S s ins = Outcome.returns none ∨
      ∃ pre i post, ins = pre ++ i :: post ∧ (∀ j ∈ pre, InputValid S s j) ∧
        i.IsBase = false ∧
        ((∃ err, S.Get s i.Ref = Except.error err ∧
            validateInputs S s ins = Outcome.returns (some err)) ∨
          (∃ r o pk, S.Get s i.Ref = Except.ok r ∧ sliceIndex r.Outputs i.Index = some o ∧
            pk ∈ i.PubKeys ∧ o.PubKeyCanUnlock pk = false ∧
            validateInputs S s ins = Outcome.returns (some Error.ErrNotAuthorized))) := by
  induction ins with
  | nil => exact Or.inl rfl
  | cons i rest ih =>
    have ih1 := ih (fun j hj => hrange j (List.mem_cons_of_mem _ hj))
    have step : InputValid S s i →
        validateInputs S s (i :: rest) = validateInputs S s rest := by
      intro hv
      exact validateInputs_skip S s [i] rest (fun j hj => by
        rcases List.mem_cons.mp hj with h1 | h1
        · rw [h1]
          exact hv
        · exact absurd h1 (List.not_mem_nil _))
    have lift : InputValid S s i →
        (validateInputs S s (i :: rest) = Outcome.returns none ∨
          ∃ pre i0 post, i :: rest = pre ++ i0 :: post ∧ (∀ j ∈ pre, InputValid S s j) ∧
            i0.IsBase = false ∧
            ((∃ err, S.Get s i0.Ref = Except.error err ∧
                validateInputs S s (i :: rest) = Outcome.returns (some err)) ∨
              (∃ r o pk, S.Get s i0.Ref = Except.ok r ∧
                sliceIndex r.Outputs i0.Index = some o ∧
                pk ∈ i0.PubKeys ∧ o.PubKeyCanUnlock pk = false ∧
                validateInputs S s (i :: rest) =
                  Outcome.returns (some Error.ErrNotAuthorized)))) := by
      intro hv
      rw [step hv]
      rcases ih1 with h | ⟨pre, i0, post, hin, hpre, hb0, hres⟩
      · exact Or.inl h
      · refine Or.inr ⟨i :: pre, i0, post, by rw [hin]; rfl, ?_, hb0, hres⟩
        intro j hj
        rcases List.mem_cons.mp hj with h1 | h1
        · rw [h1]
          exact hv
        · exact hpre j h1
    by_cases hb : i.IsBase = true
    · exact lift (Or.inl hb)
    · have hb1 : i.IsBase = false := by simpa using hb
      cases hg : S.Get s i.Ref with
      | error err =>
        refine Or.inr ⟨[], i, rest, rfl, fun j hj => absurd hj (List.not_mem_nil _), hb1,
          Or.inl ⟨err, hg, ?_⟩⟩
        unfold validateInputs
        simp only [hb1, Bool.false_eq_true, if_false, hg]
      | ok r =>
        obtain ⟨o, ho⟩ := hrange i (List.mem_cons_self _ _) hb1 r hg
        by_cases ha : i.PubKeys.all (fun pk => o.PubKeyCanUnlock pk) = true
        · exact lift (Or.inr ⟨r, o, hg, ho, fun k hk => List.all_eq_true.mp ha k hk⟩)
        · have hf : i.PubKeys.all (fun pk => o.PubKeyCanUnlock pk) = false := by simpa using ha
          obtain ⟨pk, hpk, hx⟩ := List.all_eq_false.mp hf
          refine Or.inr ⟨[], i, rest, rfl, fun j hj => absurd hj (List.not_mem_nil _), hb1,
            Or.inr ⟨r, o, pk, hg, ho, hpk, by simpa using hx, ?_⟩⟩
          unfold validateInputs
          simp only [hb1, Bool.false_eq_true, if_false, hg, ho, hf]

/-- C14: reference definition of `validateTxInputs`. For a transaction whose
non-base inputs all have in-range indices, `validateTxInputs` returns nil
exactly when every non-base input references a transaction of the store and
every public key it lists unlocks the output at its index; otherwise it
returns the error of the first input, in input order, that is not valid: the
error of the `Get` of the store when the referenced transaction is absent, and
`ErrNotAuthorized` when some listed key does not unlock. -/
theorem validateTxInputs_reference {σ ι : Type} (st : TxStore σ ι) (s : σ) (tx : Tx)
    (hrange : ∀ i ∈ tx.Inputs, i.IsBase = false → ∀ r, st.tx.Get s i.Ref = Except.ok r →
      ∃ o, sliceIndex r.Outputs i.Index = some o) :
    (st.validateTxInputs s tx = Outcome.returns none ↔
      ∀ i ∈ tx.Inputs, i.IsBase = false → ∃ r o, st.tx.Get s i.Ref = Except.ok r ∧
        sliceIndex r.Outputs i.Index = some o ∧
        ∀ k ∈ i.PubKeys, o.PubKeyCanUnlock k = true) ∧
    (st.validateTxInputs s tx = Outcome.returns none ∨
      ∃ pre i post, tx.Inputs = pre ++ i :: post ∧ (∀ j ∈ pre, InputValid st.tx s j) ∧
        i.IsBase = false ∧
        ((∃ err, st.tx.Get s i.Ref = Except.error err ∧
            st.validateTxInputs s tx = Outcome.returns (some err)) ∨
          (∃ r o pk, st.tx.Get s i.Ref = Except.ok r ∧
            sliceIndex r.Outputs i.Index = some o ∧
            pk ∈ i.PubKeys ∧ o.PubKeyCanUnlock pk = false ∧
            st.validateTxInputs s tx = Outcome.returns (some Error.ErrNotAuthorized)))) := by
  constructor
  · constructor
    · intro h i hi hb
      rcases validateInputs_eq_none st.tx s tx.Inputs h i hi with h1 | h1
      · rw [hb] at h1
        exact Bool.noConfusion h1
      · exact h1
    · intro h
      have h1 := validateInputs_skip st.tx s tx.Inputs [] (fun j hj => by
        by_cases hb : j.IsBase = true
        · exact Or.inl hb
        · exact Or.inr (h j hj (by simpa using hb)))
      rw [List.append_nil] at h1
      exact h1
  · exact validateInputs_cases st.tx s tx.Inputs hrange

/-- Witness of C14: the input of `U` claims `(B, 0)`, in range, with the key
"C", which does not unlock it. -/
theorem validateTxInputs_reference_witness :
    (stubStore.validateTxInputs [txB] txUnauth = Outcome.returns none ↔
      ∀ i ∈ txUnauth.Inputs, i.IsBase = false → ∃ r o,
        stubStore.tx.Get [txB] i.Ref = Except.ok r ∧
        sliceIndex r.Outputs i.Index = some o ∧
        ∀ k ∈ i.PubKeys, o.PubKeyCanUnlock k = true) ∧
      stubStore.validateTxInputs [txB] txUnauth =
        Outcome.returns (some Error.ErrNotAuthorized) :=
  ⟨(validateTxInputs_reference stubStore [txB] txUnauth (by
      intro i hi _ r hr
      rcases List.mem_cons.mp hi with h | h
      · subst h
        have hr1 : txB = r := Except.ok.inj hr
        subst hr1
        exact ⟨ownedOutput "x" "A", rfl⟩
      · exact absurd h (List.not_mem_nil _))).1, rfl⟩

/-! ## Base inputs -/

theorem checkSpent_base (unspent : TxMap) (ins : List TxInput)
    (h : ∀ i ∈ ins, i.IsBase = true) : SetBatch.checkSpent unspent ins = none := by
  rw [checkSpent_eq_none_iff]
  intro i hi hb
  rw [h i hi] at hb
  exact Bool.noConfusion hb

theorem validateTxInputs_of_valid {σ ι : Type} (st : TxStore σ ι) (s : σ) (tx : Tx)
    (h : ∀ j ∈ tx.Inputs, InputValid st.tx s j) :
    st.validateTxInputs s tx = Outcome.returns none := by
  have h1 := validateInputs_skip st.tx s tx.Inputs [] h
  rw [List.append_nil] at h1
  exact h1

theorem Set_of_valid {σ ι : Type} (st : TxStore σ ι) (s : σ) (tx : Tx)
    (h : st.validateTxInputs s tx = Outcome.returns none) :
    st.Set s tx = Outcome.returns (st.tx.Set s tx) := by
  unfold TxStore.Set
  rw [h]

/-- C15: base inputs skip all reference and authorization checks. For every
store and every transaction all of whose inputs are base inputs, whatever
their references, indices and keys, `validateTxInputs` returns nil and `Set`
hands the transaction to the store; for a batch of such transactions the
checks of `SetBatch` pass whatever the unspent snapshot holds, and `SetBatch`
hands the batch to the store. -/
theorem base_inputs_skip_checks {σ ι : Type} (st : TxStore σ ι) (s : σ) :
    (∀ tx : Tx, (∀ i ∈ tx.Inputs, i.IsBase = true) →
      st.validateTxInputs s tx = Outcome.returns none ∧
        st.Set s tx = Outcome.returns (st.tx.Set s tx)) ∧
    (∀ txs : List Tx, (∀ tx ∈ txs, ∀ i ∈ tx.Inputs, i.IsBase = true) →
      (∀ unspent : TxMap, SetBatch.check st s unspent txs = Outcome.returns none) ∧
        st.SetBatch s txs = Outcome.returns (st.tx.SetBatch s txs)) := by
  have hv : ∀ tx : Tx, (∀ i ∈ tx.Inputs, i.IsBase = true) →
      st.validateTxInputs s tx = Outcome.returns none :=
    fun tx h => validateTxInputs_of_valid st s tx (fun j hj => Or.inl (h j hj))
  constructor
  · intro tx h
    exact ⟨hv tx h, Set_of_valid st s tx (hv tx h)⟩
  · intro txs h
    have hc : ∀ unspent : TxMap, SetBatch.check st s unspent txs = Outcome.returns none := by
      intro unspent
      rw [check_eq_none_iff]
      exact fun tx htx => ⟨hv tx (h tx htx), checkSpent_base unspent tx.Inputs (h tx htx)⟩
    refine ⟨hc, ?_⟩
    unfold TxStore.SetBatch
    rw [hc]

/-- Witness of C15: the empty store and a transaction with two base inputs. -/
theorem base_inputs_skip_checks_witness :
    stubStore.validateTxInputs [] txAllBase = Outcome.returns none ∧
      stubStore.Set [] txAllBase = Outcome.returns (none, [txAllBase]) ∧
      stubStore.SetBatch [] [txAllBase, txB] = Outcome.returns (none, [txAllBase, txB]) :=
  have h1 : ∀ i ∈ txAllBase.Inputs, i.IsBase = true := by
    intro i hi
    rcases List.mem_cons.mp hi with h | h
    · subst h
      rfl
    · rcases List.mem_cons.mp h with h | h
      · subst h
        rfl
      · exact absurd h (List.not_mem_nil _)
  have h2 : ∀ i ∈ txB.Inputs, i.IsBase = true := by
    intro i hi
    rcases List.mem_cons.mp hi with h | h
    · subst h
      rfl
    · exact absurd h (List.not_mem_nil _)
  ⟨((base_inputs_skip_checks stubStore []).1 txAllBase h1).1,
    ((base_inputs_skip_checks stubStore []).1 txAllBase h1).2,
    ((base_inputs_skip_checks stubStore []).2 [txAllBase, txB] (by
      intro tx htx
      rcases List.mem_cons.mp htx with h | h
      · subst h
        exact h1
      · rcases List.mem_cons.mp h with h | h
        · subst h
          exact h2
        · exact absurd h (List.not_mem_nil _))).2⟩

/-! ## Which inputs spend in `FindUnspent` -/

/-- C16, as stated, fails: `B` is stored, its digest is referenced by a base
input only (an input of the non-base transaction `M`), and `FindUnspent`
marks it as spent and does not keep it. -/
theorem FindUnspent_base_input_counterexample :
    txB ∈ stubStore.tx.Iter [txB, txC, txMix] ∧
      (∀ u ∈ stubStore.tx.Iter [txB, txC, txMix], ∀ i ∈ u.Inputs,
        i.Ref = txB.Digest → i.IsBase = true) ∧
      txB.Digest ∈ (FindUnspent.scan (stubStore.tx.Iter [txB, txC, txMix])).spent ∧
      txB.Digest ∉ (stubStore.FindUnspent [txB, txC, txMix]).keys := by
  refine ⟨List.mem_cons_self _ _, ?_, by decide, by decide⟩
  intro u hu i hi hr
  rcases List.mem_cons.mp hu with h | h
  · subst h
    rcases List.mem_cons.mp hi with h1 | h1
    · subst h1
      rfl
    · exact absurd h1 (List.not_mem_nil _)
  · rcases List.mem_cons.mp h with h | h
    · subst h
      rcases List.mem_cons.mp hi with h1 | h1
      · subst h1
        rfl
      · exact absurd h1 (List.not_mem_nil _)
    · rcases List.mem_cons.mp h with h | h
      · subst h
        rcases List.mem_cons.mp hi with h1 | h1
        · subst h1
          rfl
        · rcases List.mem_cons.mp h1 with h2 | h2
          · subst h2
            exact absurd hr (by decide)
          · exact absurd h2 (List.not_mem_nil _)
      · exact absurd h (List.not_mem_nil _)

/-- C16, amended: in `FindUnspent` every input of a non-base transaction
spends. When a non-base transaction is visited, the reference of each of its
inputs, base or not, is added to the spent set and is not a key of the unspent
map afterwards; the inputs of a base transaction are not looked at, so a
stored transaction whose digest is referenced only by inputs of base
transactions remains in the result of `FindUnspent`. -/
theorem FindUnspent_inputs_that_spend {σ ι : Type} (st : TxStore σ ι) (s : σ) (B : Tx)
    (hB : B ∈ st.tx.Iter s)
    (honly : ∀ u ∈ st.tx.Iter s, ∀ i ∈ u.Inputs, i.Ref = B.Digest → u.IsBase = true) :
    B.Digest ∈ (st.FindUnspent s).keys ∧
      (∀ (acc : Scan) (tx : Tx), tx.IsBase = false → ∀ i ∈ tx.Inputs,
        i.Ref ∈ (FindUnspent.visit acc tx).spent ∧
          i.Ref ∉ (FindUnspent.visit acc tx).unspent.keys) ∧
      (∀ (acc : Scan) (tx : Tx), tx.IsBase = true →
        (FindUnspent.visit acc tx).spent = acc.spent) := by
  refine ⟨?_, ?_, ?_⟩
  · unfold TxStore.FindUnspent
    rw [scan_keys]
    refine ⟨⟨B, hB, rfl⟩, ?_⟩
    intro u hu hsp
    obtain ⟨hnb, i, hi, hr⟩ := hsp
    rw [honly u hu i hi hr] at hnb
    exact Bool.noConfusion hnb
  · intro acc tx hnb i hi
    constructor
    · rw [visit_spent]
      exact Or.inr ⟨hnb, i, hi, rfl⟩
    · rw [visit_keys]
      exact fun h => h.1 ⟨hnb, i, hi, rfl⟩
  · intro acc tx hb
    unfold FindUnspent.visit
    simp only [hb, if_true]
    by_cases hs : tx.Digest ∈ acc.spent
    · rw [if_pos hs]
    · rw [if_neg hs]

/-- Witness of C16: the digest of `B` is referenced only by the input of `G`,
a base transaction. -/
theorem FindUnspent_inputs_that_spend_witness :
    txB.Digest ∈ (stubStore.FindUnspent [txB, txG]).keys :=
  (FindUnspent_inputs_that_spend stubStore [txB, txG] txB (List.mem_cons_self _ _) (by
    intro u hu i hi hr
    rcases List.mem_cons.mp hu with h | h
    · subst h
      rfl
    · rcases List.mem_cons.mp h with h | h
      · subst h
        rfl
      · exact absurd h (List.not_mem_nil _))).1

/-! ## Order of the checks of `SetBatch` -/

theorem check_after_passed {σ ι : Type} (st : TxStore σ ι) (s : σ) (unspent : TxMap)
    (pre rest : List Tx)
    (hpre : ∀ u ∈ pre, st.validateTxInputs s u = Outcome.returns none ∧
      SetBatch.checkSpent unspent u.Inputs = none) :
    SetBatch.check st s unspent (pre ++ rest) = SetBatch.check st s unspent rest := by
  induction pre with
  | nil => rfl
  | cons t pre ih =>
    simp only [List.cons_append]
    conv_lhs => unfold SetBatch.check
    simp only [(hpre t (List.mem_cons_self _ _)).1, (hpre t (List.mem_cons_self _ _)).2]
    exact ih (fun u hu => hpre u (List.mem_cons_of_mem _ hu))

/-- An error returned by the loop of `SetBatch` is the error of a transaction
of the batch before which every transaction passes both checks. -/
theorem check_error_first_failure {σ ι : Type} (st : TxStore σ ι) (s : σ) (unspent : TxMap)
    (txs : List Tx) (err : Error)
    (h : SetBatch.check st s unspent txs = Outcome.returns (some err)) :
    ∃ pre t post, txs = pre ++ t :: post ∧
      (∀ u ∈ pre, st.validateTxInputs s u = Outcome.returns none ∧
        ∀ i ∈ u.Inputs, i.IsBase = false → i.Ref ∈ unspent.keys) ∧
      (st.validateTxInputs s t = Outcome.returns (some err) ∨
        (st.validateTxInputs s t = Outcome.returns none ∧ err = errAlreadySpent ∧
          ∃ i ∈ t.Inputs, i.IsBase = false ∧ i.Ref ∉ unspent.keys)) := by
  induction txs with
  | nil =>
    unfold SetBatch.check at h
    exact absurd (Outcome.returns.inj h) (by simp)
  | cons t txs ih =>
    unfold SetBatch.check at h
    cases hv : st.validateTxInputs s t with
    | panics =>
      simp only [hv] at h
      exact Outcome.noConfusion h
    | returns r =>
      cases r with
      | some e =>
        simp only [hv] at h
        have he : e = err := Option.some.inj (Outcome.returns.inj h)
        subst he
        exact ⟨[], t, txs, rfl, fun _ hu => absurd hu (List.not_mem_nil _), Or.inl hv⟩
      | none =>
        simp only [hv] at h
        cases hc : SetBatch.checkSpent unspent t.Inputs with
        | some e =>
          simp only [hc] at h
          have he : e = err := Option.some.inj (Outcome.returns.inj h)
          subst he
          have he2 : e = errAlreadySpent := by
            rcases checkSpent_cases unspent t.Inputs with h1 | h1
            · rw [h1] at hc
              exact Option.noConfusion hc
            · rw [h1] at hc
              exact (Option.some.inj hc).symm
          have hex : ∃ i ∈ t.Inputs, i.IsBase = false ∧ i.Ref ∉ unspent.keys := by
            by_contra hcon
            have hall : ∀ i ∈ t.Inputs, i.IsBase = false → i.Ref ∈ unspent.keys := by
              intro i hi hb
              by_contra hk
              exact hcon ⟨i, hi, hb, hk⟩
            rw [(checkSpent_eq_none_iff unspent t.Inputs).mpr hall] at hc
            exact Option.noConfusion hc
          exact ⟨[], t, txs, rfl, fun _ hu => absurd hu (List.not_mem_nil _),
            Or.inr ⟨hv, he2, hex⟩⟩
        | none =>
          simp only [hc] at h
          obtain ⟨pre, t0, post, htx, hpre, hres⟩ := ih h
          refine ⟨t :: pre, t0, post, by rw [htx]; rfl, ?_, hres⟩
          intro u hu
          rcases List.mem_cons.mp hu with h1 | h1
          · rw [h1]
            exact ⟨hv, (checkSpent_eq_none_iff unspent t.Inputs).mp hc⟩
          · exact hpre u h1

/-- C17: `SetBatch` checks the transactions in batch order and reports the
first failure. If every transaction before `t` in the batch passes both
checks, then a `validateTxInputs` error of `t` is what `SetBatch` returns,
whether or not an input of `t` is already spent and whatever the transactions
after `t` are; and if `t` passes `validateTxInputs` and has a non-base input
whose reference is not a key of the unspent snapshot, `SetBatch` returns the
already-spent error, whatever the transactions after `t` are. The store is
left as it was. Conversely, an error returned by the checks of `SetBatch` on
any batch is the error of such a first failing transaction. -/
theorem SetBatch_first_failure {σ ι : Type} (st : TxStore σ ι) (s : σ)
    (pre post : List Tx) (t : Tx)
    (hpre : ∀ u ∈ pre, st.validateTxInputs s u = Outcome.returns none ∧
      ∀ i ∈ u.Inputs, i.IsBase = false → i.Ref ∈ (st.FindUnspent s).keys) :
    (∀ err, st.validateTxInputs s t = Outcome.returns (some err) →
      st.SetBatch s (pre ++ t :: post) = Outcome.returns (some err, s)) ∧
    (st.validateTxInputs s t = Outcome.returns none →
      (∃ i ∈ t.Inputs, i.IsBase = false ∧ i.Ref ∉ (st.FindUnspent s).keys) →
      st.SetBatch s (pre ++ t :: post) = Outcome.returns (some errAlreadySpent, s)) ∧
    (∀ (txs : List Tx) (err : Error),
      SetBatch.check st s (st.FindUnspent s) txs = Outcome.returns (some err) →
      ∃ pre0 t0 post0, txs = pre0 ++ t0 :: post0 ∧
        (∀ u ∈ pre0, st.validateTxInputs s u = Outcome.returns none ∧
          ∀ i ∈ u.Inputs, i.IsBase = false → i.Ref ∈ (st.FindUnspent s).keys) ∧
        (st.validateTxInputs s t0 = Outcome.returns (some err) ∨
          (st.validateTxInputs s t0 = Outcome.returns none ∧ err = errAlreadySpent ∧
            ∃ i ∈ t0.Inputs, i.IsBase = false ∧ i.Ref ∉ (st.FindUnspent s).keys))) := by
  have hskip : SetBatch.check st s (st.FindUnspent s) (pre ++ t :: post) =
      SetBatch.check st s (st.FindUnspent s) (t :: post) :=
    check_after_passed st s _ pre (t :: post)
      (fun u hu => ⟨(hpre u hu).1, (checkSpent_eq_none_iff _ _).mpr (hpre u hu).2⟩)
  refine ⟨?_, ?_, fun txs err h => check_error_first_failure st s _ txs err h⟩
  · intro err hv
    unfold TxStore.SetBatch
    rw [hskip]
    unfold SetBatch.check
    simp only [hv]
  · rintro hv ⟨i, hi, hb, hk⟩
    have hc := checkSpent_of_spent (st.FindUnspent s) t.Inputs i hi hb hk
    unfold TxStore.SetBatch
    rw [hskip]
    unfold SetBatch.check
    simp only [hv, hc]

/-- Witness of C17: with `T1` committed, the batch `[T2, U]`, whose first
transaction is already spent and whose second is unauthorized, is refused with
the already-spent error; the batch `[U, T2]` is refused with
`ErrNotAuthorized`. -/
theorem SetBatch_first_failure_witness :
    stubStore.SetBatch [txB, txT1] ([] ++ txT2 :: [txUnauth]) =
        Outcome.returns (some errAlreadySpent, [txB, txT1]) ∧
      stubStore.SetBatch [txB, txT1] ([] ++ txUnauth :: [txT2]) =
        Outcome.returns (some Error.ErrNotAuthorized, [txB, txT1]) :=
  ⟨(SetBatch_first_failure stubStore [txB, txT1] [] [txUnauth] txT2
      (fun _ h => absurd h (List.not_mem_nil _))).2.1 rfl
      ⟨⟨"b", 0, ["A"], false⟩, List.mem_cons_self _ _, rfl, by decide⟩,
    (SetBatch_first_failure stubStore [txB, txT1] [] [txT2] txUnauth
      (fun _ h => absurd h (List.not_mem_nil _))).1 Error.ErrNotAuthorized rfl⟩

/-! ## `Set` and the unspent set -/

theorem validateInputs_congr {σ : Type} (S1 S2 : TxStorage σ) (s : σ) (ins : List TxInput)
    (h : S1.Get = S2.Get) : validateInputs S1 s ins = validateInputs S2 s ins := by
  induction ins with
  | nil => rfl
  | cons i rest ih =>
    unfold validateInputs
    rw [h, ih]

/-- C18, as stated, fails: `B` is referenced by the stored non-base
transaction `T1`, and `T2x` has an authorized non-base input referencing
`(B, 0)`, but its second input is not authorized: `T2x` does not pass
validation, `Set` returns `ErrNotAuthorized` without handing it to the store,
and `SetBatch [T2x]` returns `ErrNotAuthorized`, not the already-spent error. -/
theorem Set_no_double_spend_check_counterexample :
    txT1 ∈ stubStore.tx.Iter [txB, txT1] ∧ txT1.IsBase = false ∧
      (⟨"b", 0, ["A"], false⟩ : TxInput) ∈ txT1.Inputs ∧
      txB.Digest ∉ (stubStore.FindUnspent [txB, txT1]).keys ∧
      (⟨"b", 0, ["A"], false⟩ : TxInput) ∈ txT2x.Inputs ∧
      stubStore.tx.Get [txB, txT1] "b" = Except.ok txB ∧
      (sliceIndex txB.Outputs 0).map (fun o => o.PubKeyCanUnlock "A") = some true ∧
      stubStore.validateTxInputs [txB, txT1] txT2x =
        Outcome.returns (some Error.ErrNotAuthorized) ∧
      stubStore.Set [txB, txT1] txT2x =
        Outcome.returns (some Error.ErrNotAuthorized, [txB, txT1]) ∧
      stubStore.SetBatch [txB, txT1] [txT2x] =
        Outcome.returns (some Error.ErrNotAuthorized, [txB, txT1]) ∧
      Error.ErrNotAuthorized ≠ errAlreadySpent :=
  ⟨List.mem_cons_of_mem _ (List.mem_cons_self _ _), rfl, List.mem_cons_self _ _,
    by decide, List.mem_cons_self _ _, rfl, rfl, rfl, rfl, rfl, by decide⟩

/-- C18, amended: `Set` performs no double-spend check. The result of `Set` is
the same for two stores with the same `Get` and `Set`, whatever their
iterations are, so it does not depend on the unspent set. In particular, when
`B` is referenced by an input of a stored non-base transaction `T1`, the
digest of `B` is not a key of the unspent set, and a transaction `T2` all of
whose inputs are valid, one of them a non-base input referencing `B`, passes
validation and is handed to the `Set` of the store, although `SetBatch [T2]`
returns the already-spent error. -/
theorem Set_no_double_spend_check {σ ι : Type} (st : TxStore σ ι) (s : σ)
    (B T1 T2 : Tx) (i1 i2 : TxInput)
    (hT1 : T1 ∈ st.tx.Iter s) (hnb : T1.IsBase = false)
    (hi1 : i1 ∈ T1.Inputs) (hr1 : i1.Ref = B.Digest)
    (hvalid : ∀ j ∈ T2.Inputs, InputValid st.tx s j)
    (hi2 : i2 ∈ T2.Inputs) (hb2 : i2.IsBase = false) (hr2 : i2.Ref = B.Digest) :
    (∀ (st2 : TxStore σ ι) (tx : Tx), st2.tx.Get = st.tx.Get → st2.tx.Set = st.tx.Set →
      st2.Set s tx = st.Set s tx) ∧
    B.Digest ∉ (st.FindUnspent s).keys ∧
    st.validateTxInputs s T2 = Outcome.returns none ∧
    st.Set s T2 = Outcome.returns (st.tx.Set s T2) ∧
    st.SetBatch s [T2] = Outcome.returns (some errAlreadySpent, s) := by
  have hk : B.Digest ∉ (st.FindUnspent s).keys := by
    unfold TxStore.FindUnspent
    rw [scan_keys]
    exact fun h => h.2 T1 hT1 ⟨hnb, i1, hi1, hr1⟩
  have hv := validateTxInputs_of_valid st s T2 hvalid
  refine ⟨?_, hk, hv, Set_of_valid st s T2 hv, ?_⟩
  · intro st2 tx hg hs
    unfold TxStore.Set TxStore.validateTxInputs
    rw [validateInputs_congr st2.tx st.tx s tx.Inputs hg, hs]
  · have hc := checkSpent_of_spent (st.FindUnspent s) T2.Inputs i2 hi2 hb2 (by rw [hr2]; exact hk)
    have h1 := check_spent_after_valid st s (st.FindUnspent s) [] [] T2
      (fun _ h => absurd h (List.not_mem_nil _)) hv hc
    unfold TxStore.SetBatch
    rw [← List.nil_append [T2], h1]

/-- Witness of C18: with `T1` committed, `Set T2` is handed to the store and
`SetBatch [T2]` is refused. -/
theorem Set_no_double_spend_check_witness :
    stubStore.Set [txB, txT1] txT2 = Outcome.returns (none, [txB, txT1, txT2]) ∧
      stubStore.SetBatch [txB, txT1] [txT2] =
        Outcome.returns (some errAlreadySpent, [txB, txT1]) :=
  have h := Set_no_double_spend_check stubStore [txB, txT1] txB txT1 txT2
    ⟨"b", 0, ["A"], false⟩ ⟨"b", 0, ["A"], false⟩
    (List.mem_cons_of_mem _ (List.mem_cons_self _ _)) rfl (List.mem_cons_self _ _) rfl
    (by
      intro j hj
      rcases List.mem_cons.mp hj with h | h
      · subst h
        refine Or.inr ⟨txB, ownedOutput "x" "A", rfl, rfl, ?_⟩
        intro k hk
        rcases List.mem_cons.mp hk with h1 | h1
        · subst h1
          decide
        · exact absurd h1 (List.not_mem_nil _)
      · exact absurd h (List.not_mem_nil _))
    (List.mem_cons_self _ _) rfl rfl
  ⟨h.2.2.2.1, h.2.2.2.2⟩

/-! ## Inputs without public keys -/

/-- C19: an input that lists no public keys is authorized vacuously. If every
non-base input of a transaction references a transaction of the store at an
in-range index and lists no public key, `validateTxInputs` returns nil,
whatever the unlock predicates of the referenced outputs are, and `Set` hands
the transaction to the store. -/
theorem validateTxInputs_no_keys {σ ι : Type} (st : TxStore σ ι) (s : σ) (tx : Tx)
    (h : ∀ i ∈ tx.Inputs, i.IsBase = false → i.PubKeys = [] ∧
      ∃ r o, st.tx.Get s i.Ref = Except.ok r ∧ sliceIndex r.Outputs i.Index = some o) :
    st.validateTxInputs s tx = Outcome.returns none ∧
      st.Set s tx = Outcome.returns (st.tx.Set s tx) := by
  have hv : st.validateTxInputs s tx = Outcome.returns none := by
    apply validateTxInputs_of_valid
    intro j hj
    by_cases hb : j.IsBase = true
    · exact Or.inl hb
    · obtain ⟨hk, r, o, hg, ho⟩ := h j hj (by simpa using hb)
      refine Or.inr ⟨r, o, hg, ho, ?_⟩
      intro k hkm
      rw [hk] at hkm
      exact absurd hkm (List.not_mem_nil _)
  exact ⟨hv, Set_of_valid st s tx hv⟩

/-- Witness of C19: the output of `B` is unlockable by "A" only, and the
input claiming it lists no key. -/
theorem validateTxInputs_no_keys_witness :
    stubStore.validateTxInputs [txB] txNoKeys = Outcome.returns none ∧
      stubStore.Set [txB] txNoKeys = Outcome.returns (none, [txB, txNoKeys]) :=
  validateTxInputs_no_keys stubStore [txB] txNoKeys (by
    intro i hi _
    rcases List.mem_cons.mp hi with h | h
    · subst h
      exact ⟨rfl, txB, ownedOutput "x" "A", rfl, rfl⟩
    · exact absurd h (List.not_mem_nil _))

/-! ## Chained transactions in one batch -/

/-- C20, as stated, fails: `T1` is not in the store and passes both checks,
`T4` has a non-base input referencing the digest of `T1`, and
`SetBatch [T1, T4]` returns `ErrNotAuthorized`, the error of an earlier input
of `T4`, not the error of the `Get` of the store for the digest of `T1`. -/
theorem SetBatch_chained_counterexample :
    stubStore.tx.Get [txB] txT1.Digest = Except.error (Error.external 404) ∧
      stubStore.validateTxInputs [txB] txT1 = Outcome.returns none ∧
      SetBatch.checkSpent (stubStore.FindUnspent [txB]) txT1.Inputs = none ∧
      (⟨"t1", 0, ["A"], false⟩ : TxInput) ∈ txT4.Inputs ∧
      stubStore.SetBatch [txB] [txT1, txT4] =
        Outcome.returns (some Error.ErrNotAuthorized, [txB]) ∧
      Error.ErrNotAuthorized ≠ Error.external 404 :=
  ⟨rfl, rfl, rfl, List.mem_cons_of_mem _ (List.mem_cons_self _ _), rfl, by decide⟩

/-- C20, amended: chained transactions inside one batch are rejected. If the
`Get` of the store fails for the digest of `T1`, `T1` passes both checks of
`SetBatch`, and `T2` has a non-base input referencing the digest of `T1`, the
inputs of `T2` before it being valid, then `SetBatch [T1, T2]` returns the
error of that `Get` and leaves the store as it was. -/
theorem SetBatch_chained_rejected {σ ι : Type} (st : TxStore σ ι) (s : σ) (T1 T2 : Tx)
    (pre post : List TxInput) (i : TxInput) (err : Error)
    (hget : st.tx.Get s T1.Digest = Except.error err)
    (hv1 : st.validateTxInputs s T1 = Outcome.returns none)
    (hs1 : ∀ j ∈ T1.Inputs, j.IsBase = false → j.Ref ∈ (st.FindUnspent s).keys)
    (hin : T2.Inputs = pre ++ i :: post)
    (hpre : ∀ j ∈ pre, InputValid st.tx s j)
    (hb : i.IsBase = false) (hr : i.Ref = T1.Digest) :
    st.SetBatch s [T1, T2] = Outcome.returns (some err, s) := by
  have hv2 : st.validateTxInputs s T2 = Outcome.returns (some err) := by
    unfold TxStore.validateTxInputs
    rw [hin, validateInputs_skip st.tx s pre (i :: post) hpre]
    unfold validateInputs
    simp only [hb, Bool.false_eq_true, if_false, hr, hget]
  unfold TxStore.SetBatch
  unfold SetBatch.check
  simp only [hv1, (checkSpent_eq_none_iff _ _).mpr hs1]
  unfold SetBatch.check
  simp only [hv2]

/-- Witness of C20: `B` is stored, `T1` spends it and `T3` spends `T1` in the
same batch. -/
theorem SetBatch_chained_rejected_witness :
    stubStore.SetBatch [txB] [txT1, txT3] =
      Outcome.returns (some (Error.external 404), [txB]) :=
  SetBatch_chained_rejected stubStore [txB] txT1 txT3 [] [] ⟨"t1", 0, ["A"], false⟩
    (Error.external 404) rfl rfl
    (by
      intro j hj _
      rcases List.mem_cons.mp hj with h | h
      · subst h
        decide
      · exact absurd h (List.not_mem_nil _))
    rfl (fun _ h => absurd h (List.not_mem_nil _)) rfl rfl

end Blockchain
